import Mathlib

/-!
Verification development for the jurisdoc backend's template-rendering
pipeline and bank-description registry.

The Python source is shallowly embedded: document archives are lists of
named parts, part contents are strings (lists of characters), the regular
expressions of `templates_app/utils.py` and `templates_app/utils_jinja.py`
are implemented as deterministic character scanners with the same matching
semantics, and the Django ORM operations touched by the claims are
modelled as pure functions over lists of records.
-/

namespace Jurisdoc

/-- Whitespace characters recognised by Python's `\s` and `str.strip()`
(ASCII range, which is all the sources ever produce). -/
def pySpace (c : Char) : Bool :=
  c = ' ' || c = '\t' || c = '\n' || c = '\r' || c = '\x0b' || c = '\x0c'

/-- ASCII letters and underscore: the leading character of an identifier in
the placeholder grammars (`[a-zA-Z_]`). -/
def isAlphaUnd (c : Char) : Bool :=
  ('a' ≤ c && c ≤ 'z') || ('A' ≤ c && c ≤ 'Z') || c = '_'

/-- ASCII digits. -/
def isDigitC (c : Char) : Bool := '0' ≤ c && c ≤ '9'

/-- Python `\w` over the ASCII alphabet used by the templates. -/
def isWordChar (c : Char) : Bool := isAlphaUnd c || isDigitC c

/-- Characters allowed after the head of a Jinja variable in
`utils_jinja.JINJA_VAR_RE` (`[\w\.]`). -/
def isWordDot (c : Char) : Bool := isWordChar c || c = '.'

/-- Characters allowed after the head of a placeholder name in
`utils.PLACEHOLDER_RE` and `utils.TAG_RE` (`[\w\.\-]`). -/
def isWordDotDash (c : Char) : Bool := isWordChar c || c = '.' || c = '-'

/-- Python `str.strip()` on a character list. -/
def pyStripL (cs : List Char) : List Char :=
  ((cs.dropWhile pySpace).reverse.dropWhile pySpace).reverse

/-- Python `str.strip()` on strings. -/
def pyStrip (s : String) : String := String.mk (pyStripL s.data)

/-- Lowercase an ASCII letter; accented Latin-1 uppercase letters used in
the sources are lowered by table (Python `str.lower`). -/
def pyLowerC (c : Char) : Char :=
  if 'A' ≤ c && c ≤ 'Z' then Char.ofNat (c.toNat + 32)
  else if c = 'Á' then 'á' else if c = 'À' then 'à' else if c = 'Â' then 'â'
  else if c = 'Ã' then 'ã' else if c = 'É' then 'é' else if c = 'Ê' then 'ê'
  else if c = 'Í' then 'í' else if c = 'Ó' then 'ó' else if c = 'Ô' then 'ô'
  else if c = 'Õ' then 'õ' else if c = 'Ú' then 'ú' else if c = 'Ü' then 'ü'
  else if c = 'Ç' then 'ç' else c

/-- Python `str.lower()`. -/
def pyLower (s : String) : String := String.mk (s.data.map pyLowerC)

/-- NFKD normalisation followed by ASCII re-encoding with errors ignored,
for the accented letters the sources can meet: accents are dropped from
Latin letters, any other non-ASCII character disappears. -/
def asciiFoldC (c : Char) : Option Char :=
  if c.toNat ≤ 127 then some c
  else if c = 'á' || c = 'à' || c = 'â' || c = 'ã' || c = 'ä' then some 'a'
  else if c = 'é' || c = 'è' || c = 'ê' || c = 'ë' then some 'e'
  else if c = 'í' || c = 'ì' || c = 'î' || c = 'ï' then some 'i'
  else if c = 'ó' || c = 'ò' || c = 'ô' || c = 'õ' || c = 'ö' then some 'o'
  else if c = 'ú' || c = 'ù' || c = 'û' || c = 'ü' then some 'u'
  else if c = 'ç' then some 'c' else if c = 'ñ' then some 'n'
  else none

/-- Fold a character list to plain ASCII as `unicodedata.normalize("NFKD", s)
.encode("ascii", "ignore")` does on the alphabet above. -/
def asciiFoldL (cs : List Char) : List Char := cs.filterMap asciiFoldC

/-- Lexicographic (code-point) strict order on character lists: Python's
`<` on strings. -/
def lexLt : List Char → List Char → Bool
  | [], [] => false
  | [], _ :: _ => true
  | _ :: _, [] => false
  | a :: as, b :: bs => if a.toNat < b.toNat then true
      else if a = b then lexLt as bs else false

/-- Python string comparison `a < b`. -/
def strLtB (a b : String) : Bool := lexLt a.data b.data

/-- Insert a string into a sorted duplicate-free list, keeping it sorted and
duplicate-free. -/
def insSortedUniq (s : String) : List String → List String
  | [] => [s]
  | t :: ts => if s = t then t :: ts
      else if strLtB s t then s :: t :: ts
      else t :: insSortedUniq s ts

/-- Python `sorted(set(l))` for strings. -/
def sortedUniq (l : List String) : List String :=
  l.foldl (fun acc s => insSortedUniq s acc) []

/-- Everything before the first `|`, i.e. Python `s.split("|", 1)[0]`. -/
def firstBarSegment (cs : List Char) : List Char := cs.takeWhile (· ≠ '|')

/-- Does `needle` occur as a prefix of `hay`? (used instead of library
string functions so that all evaluation stays on character lists). -/
def lStarts : List Char → List Char → Bool
  | _, [] => true
  | [], _ :: _ => false
  | h :: hs, n :: ns => h = n && lStarts hs ns

/-- Does `needle` occur as a contiguous sublist of `hay`? Python `in`. -/
def lContains (hay needle : List Char) : Bool :=
  match hay with
  | [] => needle.isEmpty
  | _ :: hs => lStarts hay needle || lContains hs needle

/-- String containment, Python `needle in hay`. -/
def strContains (hay needle : String) : Bool := lContains hay.data needle.data

/-- String starts-with on our character lists. -/
def strStarts (s pre : String) : Bool := lStarts s.data pre.data

/-- String ends-with (Python `str.endswith`). -/
def strEnds (s suf : String) : Bool := lStarts s.data.reverse suf.data.reverse

/-! ### The legacy-bracket token grammar

`ANGLE_RE = <<\s*([^<>]+?)\s*>>` (identical in `utils.py` and
`utils_jinja.py`).  After `<<`, the leading `\s*`, the lazy non-empty body
of characters outside `{<,>}` and the trailing `\s*` together form exactly
a non-empty run of non-angle characters that must be closed by `>>`; the
Python code always strips the captured group, so carrying the whole run as
the body is observationally identical. -/

/-- Scan the body of a candidate legacy token: collect characters outside
`{<,>}` until `>>`; fail on a stray `<`/`>` or end of input, and on an
empty body.  Returns the body and the input after the closing `>>`. -/
def angleScan (acc : List Char) : List Char → Option (List Char × List Char)
  | [] => none
  | c :: rest =>
    if c = '>' then
      match rest with
      | r :: rem =>
        if r = '>' then (if acc.isEmpty then none else some (acc.reverse, rem))
        else none
      | [] => none
    else if c = '<' then none
    else angleScan (c :: acc) rest

theorem angleScan_len :
    ∀ (cs acc b rem : List Char), angleScan acc cs = some (b, rem) →
      rem.length + 2 ≤ cs.length := by
  intro cs
  induction cs with
  | nil => intro acc b rem h; simp [angleScan] at h
  | cons c rest ih =>
    intro acc b rem h
    by_cases hc : c = '>'
    · subst hc
      cases rest with
      | nil => simp [angleScan] at h
      | cons r rem2 =>
        by_cases hr : r = '>'
        · subst hr
          by_cases ha : acc = []
          · simp [angleScan, ha] at h
          · simp [angleScan, List.isEmpty_iff, ha] at h
            obtain ⟨-, h2⟩ := h
            simp [← h2, List.length]
        · simp [angleScan, hr] at h
    · by_cases hc2 : c = '<'
      · simp [angleScan, hc, hc2] at h
      · rw [angleScan.eq_def] at h
        simp only [hc, hc2, if_false] at h
        have := ih (c :: acc) b rem h
        simpa [List.length] using Nat.le_succ_of_le this

/-- Prepend a character to the prefix of a located match. -/
def consPre (c : Char) :
    Option (List Char × List Char × List Char) →
      Option (List Char × List Char × List Char)
  | some (pre, b, r) => some (c :: pre, b, r)
  | none => none

theorem consPre_eq_some {c o pre b r} (h : consPre c o = some (pre, b, r)) :
    ∃ p, o = some (p, b, r) ∧ pre = c :: p := by
  cases o with
  | none => simp [consPre] at h
  | some x =>
    obtain ⟨p, b2, r2⟩ := x
    simp only [consPre, Option.some.injEq, Prod.mk.injEq] at h
    exact ⟨p, by simp [h.2.1, h.2.2], h.1.symm⟩

/-- Find the leftmost legacy-bracket token: returns the text before the
match, the body between `<<` and `>>`, and the text after the match —
exactly `re` search order (each start position tried left to right). -/
def angleSplitFirst : List Char → Option (List Char × List Char × List Char)
  | [] => none
  | c :: rest =>
    if c = '<' ∧ rest.head? = some '<' then
      match angleScan [] rest.tail with
      | some (body, rem) => some ([], body, rem)
      | none => consPre c (angleSplitFirst rest)
    else consPre c (angleSplitFirst rest)

theorem angleSplitFirst_rest_len (cs : List Char) :
    ∀ pre b rest, angleSplitFirst cs = some (pre, b, rest) →
      rest.length < cs.length := by
  induction cs with
  | nil => intro pre b rest h; simp [angleSplitFirst] at h
  | cons c rest0 ih =>
    intro pre b rest h
    rw [angleSplitFirst] at h
    split at h
    · cases hscan : angleScan [] rest0.tail with
      | some x =>
        obtain ⟨body, rem⟩ := x
        rw [hscan] at h
        simp only [Option.some.injEq, Prod.mk.injEq] at h
        obtain ⟨-, -, h3⟩ := h
        have h4 := angleScan_len rest0.tail [] body rem hscan
        have h5 : rest0.tail.length ≤ rest0.length := by
          cases rest0 <;> simp [List.tail]
        simp [← h3, List.length]; omega
      | none =>
        rw [hscan] at h
        obtain ⟨p, hp, hpre⟩ := consPre_eq_some h
        have := ih p b rest hp
        simp [List.length]; omega
    · obtain ⟨p, hp, hpre⟩ := consPre_eq_some h
      have := ih p b rest hp
      simp [List.length]; omega

/-- `detect_angle_brackets` / `ANGLE_RE.search`: is a legacy token present? -/
def hasAngleL (cs : List Char) : Bool := (angleSplitFirst cs).isSome

/-- Worker for `sepCollapse`: `inSep` records whether the previous
character was already part of a replaced run. -/
def sepCollapseAux (keep : Char → Bool) : Bool → List Char → List Char
  | _, [] => []
  | inSep, c :: rest =>
    if keep c then c :: sepCollapseAux keep false rest
    else if inSep then sepCollapseAux keep true rest
    else '_' :: sepCollapseAux keep true rest

/-- Replace every maximal run of non-kept characters by one underscore
(`re.sub(r"[^...]+", "_", s)`). -/
def sepCollapse (keep : Char → Bool) (cs : List Char) : List Char :=
  sepCollapseAux keep false cs

/-- Worker for `collapseUnd`. -/
def collapseUndAux : Bool → List Char → List Char
  | _, [] => []
  | inRun, c :: rest =>
    if c = '_' then
      (if inRun then collapseUndAux true rest else '_' :: collapseUndAux true rest)
    else c :: collapseUndAux false rest

/-- Collapse runs of underscores to a single one
(`re.sub(r"_+", "_", s)` / `re.sub(r"_{2,}", "_", s)`). -/
def collapseUnd (cs : List Char) : List Char := collapseUndAux false cs

/-- Strip leading and trailing underscores (Python `s.strip("_")`). -/
def stripUnd (cs : List Char) : List Char :=
  ((cs.dropWhile (· = '_')).reverse.dropWhile (· = '_')).reverse

/-- Lowercase ASCII letters and digits: what survives slugification. -/
def isLowerDigit (c : Char) : Bool := ('a' ≤ c && c ≤ 'z') || isDigitC c

/-- `utils.slugify_placeholder`: strip, lowercase, drop accents, replace
runs of non-`[a-z0-9]` by `_`, collapse `_` runs, strip `_`, defaulting to
`"campo"` when nothing remains. -/
def slugify_placeholder (s : String) : String :=
  let cs := asciiFoldL ((pyStripL s.data).map pyLowerC)
  let cs := stripUnd (collapseUnd (sepCollapse isLowerDigit cs))
  if cs.isEmpty then "campo" else String.mk cs

/-- `utils_jinja._snake_case`: strip, dots to underscores, runs of
non-word characters to `_`, collapse multiple underscores, strip
underscores, lowercase. -/
def snake_case (s : String) : String :=
  let cs := (pyStripL s.data).map (fun c => if c = '.' then '_' else c)
  let cs := stripUnd (collapseUnd (sepCollapse isWordChar cs))
  String.mk (cs.map pyLowerC)

/-- Python `dict.get` on the raw-name → canonical-name mapping. -/
def mlookup (m : List (String × String)) (k : String) : Option String :=
  (m.find? (fun p => p.1 = k)).map (·.2)

/-- The replacement `repl` inside `convert_angle_to_jinja`: take the text
before the first `|`, strip it, look it up in the mapping (an empty or
missing mapping value falls through, Python `or`), else slugify, and wrap
the result as an expression-syntax token. -/
def angleRepl (m : List (String × String)) (body : List Char) : List Char :=
  let raw := String.mk (pyStripL (firstBarSegment body))
  let safe :=
    match mlookup m raw with
    | some s => if s = "" then slugify_placeholder raw else s
    | none => slugify_placeholder raw
  ('{' :: '{' :: ' ' :: safe.data) ++ [' ', '}', '}']

/-- Worker for `angleSubL`.  The fuel starts at the input length; by
`angleSplitFirst_rest_len` every step strictly shortens the remaining
text, so the fuel never runs out before the text does. -/
def angleSubGo (m : List (String × String)) : Nat → List Char → List Char
  | 0, cs => cs
  | fuel + 1, cs =>
    match angleSplitFirst cs with
    | none => cs
    | some (pre, body, rest) => pre ++ angleRepl m body ++ angleSubGo m fuel rest

/-- `ANGLE_RE.sub(repl, ·)`: rewrite every legacy token left to right. -/
def angleSubL (m : List (String × String)) (cs : List Char) : List Char :=
  angleSubGo m cs.length cs

theorem angleSubGo_of_no_angle {m cs} (fuel : Nat) (h : hasAngleL cs = false) :
    angleSubGo m fuel cs = cs := by
  rw [hasAngleL] at h
  cases fuel with
  | zero => rfl
  | succ n =>
    rw [angleSubGo]
    cases hs : angleSplitFirst cs with
    | none => rfl
    | some x => rw [hs] at h; simp at h

theorem angleSubL_of_no_angle {m cs} (h : hasAngleL cs = false) :
    angleSubL m cs = cs := angleSubGo_of_no_angle _ h

/-! ### Expression-syntax token grammars -/

theorem len_dropWhile_le {α} (p : α → Bool) (l : List α) :
    (l.dropWhile p).length ≤ l.length := by
  induction l with
  | nil => simp
  | cons c rest ih =>
    rw [List.dropWhile]
    split
    · exact Nat.le_succ_of_le ih
    · exact Nat.le_refl _

theorem len_of_dropWhile_cons {α} {p : α → Bool} {l r : List α} {c : α}
    (h : l.dropWhile p = c :: r) : r.length < l.length := by
  have := len_dropWhile_le p l
  rw [h] at this
  simp [List.length] at this
  omega

/-- After an opening `{{`, match `\s*([a-zA-Z_][\w\.]*)\s*}}`
(`utils_jinja.JINJA_VAR_RE`): return the captured variable and the text
after the closing braces. -/
def jinjaVarAfter (cs : List Char) : Option (List Char × List Char) :=
  match cs.dropWhile pySpace with
  | [] => none
  | c :: r2 =>
    if isAlphaUnd c then
      match (r2.dropWhile isWordDot).dropWhile pySpace with
      | '}' :: '}' :: rem => some (c :: r2.takeWhile isWordDot, rem)
      | _ => none
    else none

theorem jinjaVarAfter_len {cs id rem} (h : jinjaVarAfter cs = some (id, rem)) :
    rem.length < cs.length := by
  rw [jinjaVarAfter] at h
  split at h
  · simp at h
  · rename_i c r2 hd
    split at h
    · split at h
      · rename_i rem2 hin
        simp only [Option.some.injEq, Prod.mk.injEq] at h
        obtain ⟨-, h2⟩ := h
        have hr2 := len_of_dropWhile_cons hd
        have h3 : rem2.length + 2 ≤ ((r2.dropWhile isWordDot).dropWhile pySpace).length := by
          rw [hin]; simp [List.length]
        have h4 := len_dropWhile_le pySpace (r2.dropWhile isWordDot)
        have h5 := len_dropWhile_le isWordDot r2
        have h6 : rem2.length = rem.length := by rw [h2]
        omega
      · simp at h
    · simp at h

/-- `utils_jinja.JINJA_VAR_RE.finditer`: all captured variables, in
document order, non-overlapping. -/
def scanJinjaVarsGo : Nat → List Char → List String
  | 0, _ => []
  | fuel + 1, cs =>
    match cs with
    | [] => []
    | c :: rest =>
      if c = '{' ∧ rest.head? = some '{' then
        match jinjaVarAfter rest.tail with
        | some (id, rem) => String.mk id :: scanJinjaVarsGo fuel rem
        | none => scanJinjaVarsGo fuel rest
      else scanJinjaVarsGo fuel rest

def scanJinjaVars (cs : List Char) : List String := scanJinjaVarsGo cs.length cs

/-- After an opening `{{`, match `\s*([a-zA-Z_][\w\.\-]*)[^}]*}}`
(`utils.PLACEHOLDER_RE`): return the captured name and the rest. -/
def placeholderAfter (cs : List Char) : Option (List Char × List Char) :=
  match cs.dropWhile pySpace with
  | [] => none
  | c :: r2 =>
    if isAlphaUnd c then
      match (r2.dropWhile isWordDotDash).dropWhile (· ≠ '}') with
      | '}' :: '}' :: rem => some (c :: r2.takeWhile isWordDotDash, rem)
      | _ => none
    else none

theorem placeholderAfter_len {cs id rem} (h : placeholderAfter cs = some (id, rem)) :
    rem.length < cs.length := by
  rw [placeholderAfter] at h
  split at h
  · simp at h
  · rename_i c r2 hd
    split at h
    · split at h
      · rename_i rem2 hin
        simp only [Option.some.injEq, Prod.mk.injEq] at h
        obtain ⟨-, h2⟩ := h
        have hr2 := len_of_dropWhile_cons hd
        have h3 : rem2.length + 2 ≤ ((r2.dropWhile isWordDotDash).dropWhile (· ≠ '}')).length := by
          rw [hin]; simp [List.length]
        have h4 := len_dropWhile_le (· ≠ '}') (r2.dropWhile isWordDotDash)
        have h5 := len_dropWhile_le isWordDotDash r2
        have h6 : rem2.length = rem.length := by rw [h2]
        omega
      · simp at h
    · simp at h

/-- `utils.PLACEHOLDER_RE.finditer`: all captured names. -/
def scanPlaceholdersGo : Nat → List Char → List String
  | 0, _ => []
  | fuel + 1, cs =>
    match cs with
    | [] => []
    | c :: rest =>
      if c = '{' ∧ rest.head? = some '{' then
        match placeholderAfter rest.tail with
        | some (id, rem) => String.mk id :: scanPlaceholdersGo fuel rem
        | none => scanPlaceholdersGo fuel rest
      else scanPlaceholdersGo fuel rest

def scanPlaceholders (cs : List Char) : List String := scanPlaceholdersGo cs.length cs

/-- After an opening `{%`, match `\s*(if|for)\s+([a-zA-Z_][\w\.\-]*)`
(`utils.TAG_RE`): return the captured variable (second group) and the rest
of the text after the match. -/
def tagAfter (cs : List Char) : Option (List Char × List Char) :=
  let r := cs.dropWhile pySpace
  let afterKw : Option (List Char) :=
    if lStarts r ['i', 'f'] then some (r.drop 2)
    else if lStarts r ['f', 'o', 'r'] then some (r.drop 3)
    else none
  match afterKw with
  | none => none
  | some k =>
    match k with
    | [] => none
    | c :: k2 =>
      if pySpace c then
        match k2.dropWhile pySpace with
        | [] => none
        | d :: k4 =>
          if isAlphaUnd d then
            some (d :: k4.takeWhile isWordDotDash, k4.dropWhile isWordDotDash)
          else none
      else none

theorem tagAfter_len {cs id rem} (h : tagAfter cs = some (id, rem)) :
    rem.length < cs.length := by
  rw [tagAfter] at h
  have hr := len_dropWhile_le pySpace cs
  split at h
  · simp at h
  · rename_i k hk
    have hklen : k.length ≤ (cs.dropWhile pySpace).length := by
      split at hk
      · cases hk; simp only [List.length_drop]; omega
      · split at hk
        · cases hk; simp only [List.length_drop]; omega
        · simp at hk
    split at h
    · simp at h
    · rename_i c k2
      split at h
      · split at h
        · simp at h
        · rename_i d k4 hk4
          split at h
          · simp only [Option.some.injEq, Prod.mk.injEq] at h
            obtain ⟨-, h2⟩ := h
            have h3 := len_of_dropWhile_cons hk4
            have h4 := len_dropWhile_le isWordDotDash k4
            simp only [← h2]
            simp [List.length] at hklen
            omega
          · simp at h
      · simp at h

/-- `utils.TAG_RE.finditer`: all captured control-tag variables. -/
def scanTagsGo : Nat → List Char → List String
  | 0, _ => []
  | fuel + 1, cs =>
    match cs with
    | [] => []
    | c :: rest =>
      if c = '{' ∧ rest.head? = some '%' then
        match tagAfter rest.tail with
        | some (id, rem) => String.mk id :: scanTagsGo fuel rem
        | none => scanTagsGo fuel rest
      else scanTagsGo fuel rest

def scanTags (cs : List Char) : List String := scanTagsGo cs.length cs

/-- Scan for `%}` with no interposed newline (`.*?%}` with `.` not
matching a newline), for `utils_jinja.JINJA_BLOCK_RE`. -/
def closeNoNL : List Char → Bool
  | '%' :: '}' :: _ => true
  | '\n' :: _ => false
  | _ :: rest => closeNoNL rest
  | [] => false

/-- Literal keyword at the head of `r` followed by a word boundary. -/
def kwBoundary (kw : String) (r : List Char) : Bool :=
  lStarts r kw.data &&
    (match (r.drop kw.data.length).head? with
     | some c => !isWordChar c
     | none => true)

/-- After an opening `{%`: `\s*(if|for|elif|endif|endfor)\b.*?%}`.  The five
keywords are mutually prefix-free, so at most one alternative can match at
a given position. -/
def blockAfter (cs : List Char) : Bool :=
  let r := cs.dropWhile pySpace
  ["if", "for", "elif", "endif", "endfor"].any (fun kw =>
    kwBoundary kw r && closeNoNL (r.drop kw.data.length))

/-- `utils_jinja.JINJA_BLOCK_RE.search`: is a control block present? -/
def jinjaBlockFound (cs : List Char) : Bool :=
  match cs with
  | [] => false
  | c :: rest =>
    if c = '{' ∧ rest.head? = some '%' then
      blockAfter rest.tail || jinjaBlockFound rest
    else jinjaBlockFound rest

/-- Match `\s*}}` at the head of the input (closing of a lazy print
expression), returning the text after the braces. -/
def wsClose (cs : List Char) : Option (List Char) :=
  match cs.dropWhile pySpace with
  | '}' :: '}' :: rem => some rem
  | _ => none

theorem wsClose_len {cs rem} (h : wsClose cs = some rem) :
    rem.length + 2 ≤ cs.length := by
  rw [wsClose] at h
  split at h
  · rename_i rem2 hin
    simp only [Option.some.injEq] at h
    have h2 := len_dropWhile_le pySpace cs
    rw [hin] at h2
    simp [List.length] at h2
    have h5 : rem2.length = rem.length := by rw [h]
    omega
  · simp at h

/-- The lazy body of `utils_jinja.PRINT_ANY_RE` (`{{\s*(.*?)\s*}}`) after
the opening braces: at each position first try to close with `\s*}}`, else
extend the body with one non-newline character. -/
def printBody (acc : List Char) : List Char → Option (List Char × List Char)
  | [] => none
  | c :: rest =>
    match wsClose (c :: rest) with
    | some tail => some (acc.reverse, tail)
    | none => if c = '\n' then none else printBody (c :: acc) rest

theorem printBody_len :
    ∀ (cs acc b tail : List Char), printBody acc cs = some (b, tail) →
      tail.length < cs.length := by
  intro cs
  induction cs with
  | nil => intro acc b tail h; simp [printBody] at h
  | cons c rest ih =>
    intro acc b tail h
    rw [printBody] at h
    cases hw : wsClose (c :: rest) with
    | some t2 =>
      simp only [hw, Option.some.injEq, Prod.mk.injEq] at h
      obtain ⟨-, h2⟩ := h
      have h3 := wsClose_len hw
      have h4 : t2.length = tail.length := by rw [h2]
      simp [List.length] at h3 ⊢
      omega
    | none =>
      simp only [hw] at h
      split at h
      · simp at h
      · have := ih (c :: acc) b tail h
        simp [List.length]
        omega

/-- `utils_jinja.PRINT_ANY_RE.finditer`: the stripped inner text of every
print expression, in document order. -/
def scanPrintsGo : Nat → List Char → List String
  | 0, _ => []
  | fuel + 1, cs =>
    match cs with
    | [] => []
    | c :: rest =>
      if c = '{' ∧ rest.head? = some '{' then
        match printBody [] rest.tail with
        | some (body, tail) => String.mk (pyStripL body) :: scanPrintsGo fuel tail
        | none => scanPrintsGo fuel rest
      else scanPrintsGo fuel rest

def scanPrints (cs : List Char) : List String := scanPrintsGo cs.length cs

/-- The chained-filter part of `utils_jinja._ALLOWED_EXPR_RE`
(`(?:\s*\|\s*[A-Za-z_]\w*(?:\([^\)]*\))?)*$`).  The fuel argument is the
length of the input: every iteration consumes at least the `|`, so the
zero-fuel non-empty case is unreachable. -/
def allowedFiltersFuel : Nat → List Char → Bool
  | _, [] => true
  | 0, _ :: _ => false
  | fuel + 1, cs =>
    match cs.dropWhile pySpace with
    | '|' :: r2 =>
      match r2.dropWhile pySpace with
      | d :: r4 =>
        if isAlphaUnd d then
          match r4.dropWhile isWordChar with
          | '(' :: r6 =>
            match r6.dropWhile (· ≠ ')') with
            | ')' :: r8 => allowedFiltersFuel fuel r8
            | _ => false
          | r5 => allowedFiltersFuel fuel r5
        else false
      | [] => false
    | _ => false

/-- `utils_jinja._ALLOWED_EXPR_RE.match`: an identifier path optionally
followed by chained filters, anchored at both ends. -/
def allowedExprB (cs : List Char) : Bool :=
  match cs with
  | [] => false
  | c :: rest => isAlphaUnd c && allowedFiltersFuel rest.length (rest.dropWhile isWordDot)

/-! ### `utils_jinja._xml_to_plain`: three regex substitutions. -/

/-- Case-insensitive character comparison (Python `re.IGNORECASE`). -/
def charCI (a b : Char) : Bool := pyLowerC a = pyLowerC b

/-- Consume a case-insensitive literal pattern, returning the rest. -/
def eatCI : List Char → List Char → Option (List Char)
  | [], cs => some cs
  | _ :: _, [] => none
  | p :: ps, c :: cs => if charCI c p then eatCI ps cs else none

theorem eatCI_len :
    ∀ (p cs r : List Char), eatCI p cs = some r → r.length + p.length = cs.length := by
  intro p
  induction p with
  | nil =>
    intro cs r h
    simp [eatCI] at h
    simp [h]
  | cons x ps ih =>
    intro cs r h
    cases cs with
    | nil => simp [eatCI] at h
    | cons c cs2 =>
      rw [eatCI] at h
      split at h
      · have := ih cs2 r h
        simp [List.length]
        omega
      · simp at h

/-- Match `</w:t>\s*<w:t[^>]*>` at the head of the input
(`re.IGNORECASE`), returning the text after the match. -/
def matchWtJoin (cs : List Char) : Option (List Char) :=
  match eatCI ['<', '/', 'w', ':', 't', '>'] cs with
  | none => none
  | some r1 =>
    match eatCI ['<', 'w', ':', 't'] (r1.dropWhile pySpace) with
    | none => none
    | some r3 =>
      match r3.dropWhile (· ≠ '>') with
      | '>' :: rem => some rem
      | _ => none

theorem matchWtJoin_len {cs rem} (h : matchWtJoin cs = some rem) :
    rem.length < cs.length := by
  rw [matchWtJoin] at h
  split at h
  · simp at h
  · rename_i r1 h1
    split at h
    · simp at h
    · rename_i r3 h3
      split at h
      · rename_i rem2 hin
        simp only [Option.some.injEq] at h
        have e1 := eatCI_len _ _ _ h1
        have e3 := eatCI_len _ _ _ h3
        have d1 := len_dropWhile_le pySpace r1
        have d3 := len_dropWhile_le (· ≠ '>') r3
        have h4 : rem2.length + 1 ≤ (r3.dropWhile (· ≠ '>')).length := by
          rw [hin]; simp [List.length]
        have h5 : rem2.length = rem.length := by rw [h]
        simp [List.length] at e1 e3
        omega
      · simp at h

/-- First substitution of `_xml_to_plain`: glue adjacent text runs by
deleting every `</w:t>\s*<w:t[^>]*>` occurrence. -/
def mergeWtTagsGo : Nat → List Char → List Char
  | 0, cs => cs
  | fuel + 1, cs =>
    match cs with
    | [] => []
    | c :: rest =>
      match matchWtJoin (c :: rest) with
      | some rem => mergeWtTagsGo fuel rem
      | none => c :: mergeWtTagsGo fuel rest

def mergeWtTags (cs : List Char) : List Char := mergeWtTagsGo cs.length cs

/-- Skip one XML tag after a `<`: `[^>]+>`; `<>` does not match. -/
def tagSkip (cs : List Char) : Option (List Char) :=
  match cs with
  | [] => none
  | c :: rest =>
    if c = '>' then none
    else
      match rest.dropWhile (· ≠ '>') with
      | '>' :: rem => some rem
      | _ => none

theorem tagSkip_len {cs rem} (h : tagSkip cs = some rem) :
    rem.length < cs.length := by
  rw [tagSkip.eq_def] at h
  split at h
  · simp at h
  · rename_i c rest
    split at h
    · simp at h
    · split at h
      · rename_i rem2 hin
        simp only [Option.some.injEq] at h
        have d := len_dropWhile_le (· ≠ '>') rest
        have h4 : rem2.length + 1 ≤ (rest.dropWhile (· ≠ '>')).length := by
          rw [hin]; simp [List.length]
        have h5 : rem2.length = rem.length := by rw [h]
        simp [List.length]
        omega
      · simp at h

/-- Second substitution of `_xml_to_plain`: remove every XML tag
(`re.sub(r"<[^>]+>", "", xml)`). -/
def stripTagsGo : Nat → List Char → List Char
  | 0, cs => cs
  | fuel + 1, cs =>
    match cs with
    | [] => []
    | c :: rest =>
      if c = '<' then
        match tagSkip rest with
        | some rem => stripTagsGo fuel rem
        | none => c :: stripTagsGo fuel rest
      else c :: stripTagsGo fuel rest

def stripTags (cs : List Char) : List Char := stripTagsGo cs.length cs

/-- Worker for the third substitution of `_xml_to_plain`. -/
def collapseWsAux : Bool → List Char → List Char
  | _, [] => []
  | inRun, c :: rest =>
    if pySpace c then
      (if inRun then collapseWsAux true rest else ' ' :: collapseWsAux true rest)
    else c :: collapseWsAux false rest

/-- Third substitution of `_xml_to_plain`: collapse every whitespace run
into a single space (`re.sub(r"\s+", " ", xml)`). -/
def collapseWs (cs : List Char) : List Char := collapseWsAux false cs

/-- `utils_jinja._xml_to_plain`. -/
def xml_to_plain (cs : List Char) : List Char :=
  collapseWs (stripTags (mergeWtTags cs))

/-! ### Document archives and the `templates_app` utility functions

A `.docx` file is a zip archive; we model it as the ordered list of its
parts, each part being a name and its (decoded) content.  `convert_angle_
to_jinja` re-encodes text parts as UTF-8, which is the identity on the
decoded text, so content is carried as a string. -/

/-- One part of a document archive (a zip member). -/
structure ArchivePart where
  name : String
  data : String
deriving DecidableEq, Repr

/-- A document archive: the ordered list of its parts. -/
abbrev Archive := List ArchivePart

/-- A derived placeholder field: raw token text, normalised name, inferred
value kind. -/
structure FieldInfo where
  raw : String
  name : String
  ty : String
deriving DecidableEq, Repr

/-- `utils.guess_field_type`: substring heuristics on the lowered name. -/
def guess_field_type (name : String) : String :=
  let n := pyLower name
  if ["valor", "quantia", "preco", "preço", "montante"].any (fun k => strContains n k) then "currency"
  else if ["data", "competencia"].any (fun k => strContains n k) then "date"
  else if strContains n "cpf" then "cpf"
  else if strContains n "cnpj" then "cnpj"
  else if strContains n "cep" then "cep"
  else if ["telefone", "celular", "fone"].any (fun k => strContains n k) then "phone"
  else if strStarts n "is_" || strStarts n "se" || strEnds n "_bool" then "bool"
  else if strContains n "email" then "email"
  else if ["qtd", "quantidade", "parcelas"].any (fun k => strContains n k) then "int"
  else "string"

/-- Part names whose text `utils_jinja._read_xml_from_docx` reads (suffix
matched with `str.endswith`). -/
def jinjaPartSuffixes : List String :=
  ["document.xml",
   "header1.xml", "header2.xml", "header3.xml",
   "footer1.xml", "footer2.xml", "footer3.xml",
   "footnotes.xml", "endnotes.xml"]

/-- The part filter of `utils_jinja._read_xml_from_docx`. -/
def jinjaReadsPart (n : String) : Bool :=
  strStarts n "word/" && strEnds n ".xml" &&
    jinjaPartSuffixes.any (fun s => strEnds n s)

/-- Join plain-text parts with a newline (`"\n".join(parts)`). -/
def joinNL : List (List Char) → List Char
  | [] => []
  | [p] => p
  | p :: ps => p ++ '\n' :: joinNL ps

/-- `utils_jinja._read_xml_from_docx`: the single plain-text stream of the
relevant parts. -/
def read_xml_from_docx (arch : Archive) : List Char :=
  joinNL ((arch.filter (fun p => jinjaReadsPart p.name)).map
    (fun p => xml_to_plain p.data.data))

/-- `utils_jinja.extract_jinja_fields`. -/
def extract_jinja_fields (arch : Archive) : String × List FieldInfo :=
  let txt := read_xml_from_docx arch
  let vars := sortedUniq (scanJinjaVars txt)
  let fields := vars.map (fun v => FieldInfo.mk v (snake_case v) "string")
  let syn := if fields.isEmpty then
      (if jinjaBlockFound txt then "jinja" else "unknown") else "jinja"
  (syn, fields)

/-- `utils_jinja.detect_angle_brackets`. -/
def detect_angle_brackets (arch : Archive) : Bool :=
  hasAngleL (read_xml_from_docx arch)

/-- `utils_jinja.find_invalid_jinja_prints`. -/
def find_invalid_jinja_prints (arch : Archive) : List String :=
  (scanPrints (read_xml_from_docx arch)).filter (fun s => !(allowedExprB s.data))

/-- The part filter of `utils._iter_xml_strings`: body, headers, footers. -/
def iterReadsPart (n : String) : Bool :=
  strStarts n "word/" && strEnds n ".xml" &&
    (n = "word/document.xml" || strStarts n "word/header" || strStarts n "word/footer")

/-- `utils._iter_xml_strings`: the raw XML text of the relevant parts. -/
def iter_xml_strings (arch : Archive) : List String :=
  (arch.filter (fun p => iterReadsPart p.name)).map (fun p => p.data)

/-- All bodies of legacy tokens in the text, left to right, each reduced as
`m.group(1).split("|", 1)[0].strip()`. -/
def scanAnglesGo : Nat → List Char → List String
  | 0, _ => []
  | fuel + 1, cs =>
    match angleSplitFirst cs with
    | none => []
    | some (_, body, rest) =>
      String.mk (pyStripL (firstBarSegment body)) :: scanAnglesGo fuel rest

def scanAngles (cs : List Char) : List String := scanAnglesGo cs.length cs

/-- Reduce a captured placeholder name as `x.split("|", 1)[0].strip()`. -/
def cleanName (s : String) : String := pyStrip (String.mk (firstBarSegment s.data))

/-- The result of `utils.extract_fields`. -/
structure ExtractResult where
  synClass : String
  fields : List FieldInfo
deriving DecidableEq, Repr

/-- The expression-token captures of `utils.extract_fields`
(`PLACEHOLDER_RE` and `TAG_RE` over every raw XML part). -/
def jinjaNamesRaw (arch : Archive) : List String :=
  (iter_xml_strings arch).foldl
    (fun acc x => acc ++ scanPlaceholders x.data ++ scanTags x.data) []

/-- The legacy-token captures of `utils.extract_fields` (`ANGLE_RE` over
every raw XML part, keeping only tokens with a non-empty reduced name). -/
def angleNamesRaw (arch : Archive) : List String :=
  (iter_xml_strings arch).foldl
    (fun acc x => acc ++ (scanAngles x.data).filter (fun r => r ≠ "")) []

/-- `utils.extract_fields`: dual detection with expression tokens taking
precedence over legacy tokens, else unknown. -/
def extract_fields (arch : Archive) : ExtractResult :=
  let namesJ := jinjaNamesRaw arch
  let namesA := angleNamesRaw arch
  if namesJ.isEmpty then
    if namesA.isEmpty then ExtractResult.mk "unknown" []
    else
      ExtractResult.mk "angle" ((sortedUniq namesA).map
        (fun r => FieldInfo.mk r (slugify_placeholder r)
          (guess_field_type (slugify_placeholder r))))
  else
    ExtractResult.mk "jinja" ((sortedUniq (namesJ.map cleanName)).map
      (fun n => FieldInfo.mk n n (guess_field_type n)))

/-- The rewrite condition of `convert_angle_to_jinja`: every part named
`word/*.xml` is decoded, rewritten and re-encoded. -/
def isWordXmlName (n : String) : Bool := strStarts n "word/" && strEnds n ".xml"

/-- `utils.convert_angle_to_jinja`: copy every part, rewriting legacy
tokens to expression tokens inside the `word/*.xml` parts. -/
def convert_angle_to_jinja (m : List (String × String)) (arch : Archive) : Archive :=
  arch.map (fun p =>
    if isWordXmlName p.name then
      ArchivePart.mk p.name (String.mk (angleSubL m p.data.data))
    else p)

/-! ### The bank-description registry (`cadastro`)

`DescricaoBanco` carries the structured fields `nome_banco`, `cnpj` and
`endereco` used by its serializer, admin and the render views; the
`models.py` snapshot lags behind the migrations there, so the record is
modelled with the full field set the code reads and writes.  `banco_id`
is validated upstream (`validate_banco_id`) and a required model field,
hence non-empty on stored records.  Timestamps are modelled as naturals
(`atualizado_em` from `auto_now`). -/

/-- A `DescricaoBanco` row. -/
structure DescricaoBanco where
  pk : Nat
  banco_id : String
  banco_nome : String
  descricao : String
  nome_banco : String
  cnpj : String
  endereco : String
  is_ativa : Bool
  atualizado_em : Nat
deriving DecidableEq, Repr

/-- A `ContaBancaria` row (the fields the render pipeline reads). -/
structure ContaBancaria where
  banco_nome : String
  banco_codigo : String
  is_principal : Bool
deriving DecidableEq, Repr

/-- A `Cliente` row with its bank accounts (the fields the render
pipeline reads). -/
structure Cliente where
  nome_completo : String
  cpf : String
  cidade : String
  contas : List ContaBancaria
deriving DecidableEq, Repr

/-- The storage-layer invariant behind the conditional unique constraint
`unique_active_descricaobanco_per_bank`: no two rows share a `banco_id`
while both are active. -/
def ativaUnique (db : List DescricaoBanco) : Prop :=
  db.Pairwise (fun a b => a.is_ativa = true → b.is_ativa = true → a.banco_id ≠ b.banco_id)

instance (db : List DescricaoBanco) : Decidable (ativaUnique db) := by
  unfold ativaUnique
  exact List.instDecidablePairwise db

/-- Primary keys are unique (database identity). -/
def pksUnique (db : List DescricaoBanco) : Prop :=
  db.Pairwise (fun a b => a.pk ≠ b.pk)

instance (db : List DescricaoBanco) : Decidable (pksUnique db) := by
  unfold pksUnique
  exact List.instDecidablePairwise db

/-- Greater-than on a lexicographic pair of naturals, for descending
`order_by` keys. -/
def keyGt (a b : Nat × Nat) : Bool := a.1 > b.1 || (a.1 = b.1 && a.2 > b.2)

/-- `qs.order_by(<descending key>).first()`: the element whose key is
maximal, the earliest such element winning ties. -/
def firstMaxBy {α} (f : α → Nat × Nat) : List α → Option α
  | [] => none
  | x :: xs =>
    match firstMaxBy f xs with
    | none => some x
    | some y => if keyGt (f y) (f x) then some y else some x

theorem keyGt_irrefl (p : Nat × Nat) : keyGt p p = false := by
  simp [keyGt]

theorem keyGt_asymm {p q : Nat × Nat} (h : keyGt p q = true) : keyGt q p = false := by
  simp [keyGt] at h ⊢
  omega

theorem keyGt_notGt_trans {p q r : Nat × Nat}
    (h1 : keyGt p q = false) (h2 : keyGt q r = false) : keyGt p r = false := by
  simp [keyGt] at h1 h2 ⊢
  omega

theorem firstMaxBy_mem {α} (f : α → Nat × Nat) :
    ∀ (l : List α) (x : α), firstMaxBy f l = some x → x ∈ l := by
  intro l
  induction l with
  | nil => intro x h; simp [firstMaxBy] at h
  | cons a as ih =>
    intro x h
    rw [firstMaxBy] at h
    cases hr : firstMaxBy f as with
    | none =>
      simp only [hr] at h
      have hax : a = x := by simpa using h
      subst hax
      exact List.mem_cons_self a as
    | some y =>
      simp only [hr] at h
      split at h
      · have hyx : y = x := by simpa using h
        subst hyx
        exact List.mem_cons_of_mem a (ih _ hr)
      · have hax : a = x := by simpa using h
        subst hax
        exact List.mem_cons_self a as

theorem firstMaxBy_isSome {α} (f : α → Nat × Nat) :
    ∀ (l : List α), l ≠ [] → (firstMaxBy f l).isSome := by
  intro l
  cases l with
  | nil => intro h; exact absurd rfl h
  | cons a as =>
    intro _
    rw [firstMaxBy]
    cases hr : firstMaxBy f as with
    | none => simp only [hr]; simp
    | some y =>
      simp only [hr]
      split <;> simp

theorem firstMaxBy_max {α} (f : α → Nat × Nat) :
    ∀ (l : List α) (x : α), firstMaxBy f l = some x →
      ∀ y ∈ l, keyGt (f y) (f x) = false := by
  intro l
  induction l with
  | nil => intro x h; simp [firstMaxBy] at h
  | cons a as ih =>
    intro x h y hy
    rw [firstMaxBy] at h
    cases hr : firstMaxBy f as with
    | none =>
      simp only [hr] at h
      have hax : a = x := by simpa using h
      subst hax
      cases as with
      | nil =>
        have : y = a := by simpa using hy
        subst this
        exact keyGt_irrefl _
      | cons b bs =>
        exfalso
        have hne := firstMaxBy_isSome f (b :: bs) (by simp)
        rw [hr] at hne
        simp at hne
    | some z =>
      simp only [hr] at h
      split at h
      · rename_i hgt
        have hzx : z = x := by simpa using h
        subst hzx
        cases hy with
        | head => exact keyGt_asymm hgt
        | tail _ hmem => exact ih z hr y hmem
      · rename_i hngt
        have hax : a = x := by simpa using h
        subst hax
        cases hy with
        | head => exact keyGt_irrefl _
        | tail _ hmem =>
          have h1 := ih z hr y hmem
          have h2 : keyGt (f z) (f a) = false := by
            cases hk : keyGt (f z) (f a)
            · rfl
            · exact absurd hk hngt
          exact keyGt_notGt_trans h1 h2

/-- `PetitionViewSet._normalize_bank_name`: strip, then drop a trailing
parenthesised 1–6 digit suffix (`re.sub(r"\s*\(\d{1,6}\)\s*$", "", name)`). -/
def normalize_bank_name (s : String) : String :=
  let stripped := pyStripL s.data
  match stripped.reverse with
  | ')' :: r1 =>
    let digits := r1.takeWhile isDigitC
    let r2 := r1.dropWhile isDigitC
    if 1 ≤ digits.length ∧ digits.length ≤ 6 then
      match r2 with
      | '(' :: r3 => String.mk ((r3.dropWhile pySpace).reverse)
      | _ => String.mk stripped
    else String.mk stripped
  | _ => String.mk stripped

/-- Python `a or b` on strings. -/
def pyOr (a b : String) : String := if a = "" then b else a

/-- The resolved bank-description fields returned by
`PetitionViewSet._get_banco_descricao_ativa`. -/
structure BancoDesc where
  nome_banco : String
  cnpj : String
  endereco_banco : String
deriving DecidableEq, Repr

/-- `PetitionViewSet._get_banco_descricao_ativa`: among the ACTIVE rows,
filter by the account's short code, else by its normalised display name,
and take the most recently updated one. -/
def get_banco_descricao_ativa (conta : Option ContaBancaria)
    (db : List DescricaoBanco) : Option BancoDesc :=
  match conta with
  | none => none
  | some conta =>
    let banco_codigo := pyStrip conta.banco_codigo
    let banco_nome := pyStrip conta.banco_nome
    let qs := db.filter (fun r => r.is_ativa)
    let qs :=
      if banco_codigo ≠ "" then qs.filter (fun r => r.banco_id = banco_codigo)
      else if banco_nome ≠ "" then
        qs.filter (fun r => r.banco_nome = normalize_bank_name banco_nome)
      else qs
    match firstMaxBy (fun r => (r.atualizado_em, 0)) qs with
    | none => none
    | some obj =>
      some (BancoDesc.mk
        (pyStrip (pyOr obj.nome_banco (pyOr obj.banco_nome banco_nome)))
        (pyStrip obj.cnpj)
        (pyStrip obj.endereco))

/-- Join non-empty strings with a separator (`sep.join(parts)`). -/
def joinSep (sep : String) : List String → String
  | [] => ""
  | [x] => x
  | x :: xs => x ++ sep ++ joinSep sep xs

/-- `PetitionViewSet._format_banco_string`. -/
def format_banco_string (desc : Option BancoDesc) (fallback : String) : String :=
  match desc with
  | none => fallback
  | some d =>
    let parts :=
      (if pyStrip d.nome_banco ≠ "" then [pyStrip d.nome_banco] else []) ++
      (if pyStrip d.cnpj ≠ "" then ["CNPJ: " ++ pyStrip d.cnpj] else []) ++
      (if pyStrip d.endereco_banco ≠ "" then [pyStrip d.endereco_banco] else [])
    pyOr (joinSep " — " parts) fallback

/-- The response of `DescricaoBancoViewSet.lookup`. -/
inductive LookupResp where
  | badRequest
  | noContent
  | found (d : DescricaoBanco)
deriving DecidableEq, Repr

/-- `DescricaoBancoViewSet.lookup`: the active row for the identifier, or
failing that the most recent row regardless of the active flag. -/
def lookupDescricao (bankId bankName : Option String)
    (db : List DescricaoBanco) : LookupResp :=
  let bidTruthy : Bool := match bankId with | some s => s != "" | none => false
  let nameTruthy : Bool := match bankName with | some s => s != "" | none => false
  if !bidTruthy && !nameTruthy then .badRequest
  else
    let qs :=
      if bidTruthy then db.filter (fun r => r.banco_id = bankId.getD "")
      else db.filter (fun r => r.banco_nome = bankName.getD "")
    match firstMaxBy (fun r => (r.atualizado_em, 0)) (qs.filter (fun r => r.is_ativa)) with
    | some o => .found o
    | none =>
      match firstMaxBy (fun r => (if r.is_ativa then 1 else 0, r.atualizado_em)) qs with
      | some o => .found o
      | none => .noContent

/-- Deactivate every active sibling with the given `banco_id`, optionally
excluding one primary key
(`DescricaoBanco.objects.filter(banco_id=..., is_ativa=True)[.exclude(pk=...)]
.update(is_ativa=False)`). -/
def deactOne (bid : String) (exceptPk : Option Nat) (r : DescricaoBanco) :
    DescricaoBanco :=
  if r.banco_id = bid ∧ r.is_ativa = true ∧ exceptPk ≠ some r.pk then
    { r with is_ativa := false }
  else r

def deactivateSiblings (bid : String) (exceptPk : Option Nat)
    (db : List DescricaoBanco) : List DescricaoBanco :=
  db.map (deactOne bid exceptPk)

/-- The writable fields of `DescricaoBancoSerializer`. -/
structure DescInput where
  banco_id : String
  banco_nome : String
  nome_banco : String
  cnpj : String
  endereco : String
  is_ativa : Bool
deriving DecidableEq, Repr

/-- `DescricaoBancoSerializer.create`: inside one transaction, deactivate
the active siblings when the new row is to be active, then insert it. -/
def descricaoCreate (db : List DescricaoBanco) (inp : DescInput)
    (newPk now : Nat) : List DescricaoBanco :=
  let db :=
    if inp.is_ativa = true ∧ inp.banco_id ≠ "" then
      deactivateSiblings inp.banco_id none db
    else db
  db ++ [DescricaoBanco.mk newPk inp.banco_id inp.banco_nome ""
    inp.nome_banco inp.cnpj inp.endereco inp.is_ativa now]

/-- A partial update payload (`PATCH`): absent fields keep the instance
values (`validated_data.get(f, instance.f)`). -/
structure DescPatch where
  banco_id : Option String
  banco_nome : Option String
  nome_banco : Option String
  cnpj : Option String
  endereco : Option String
  is_ativa : Option Bool
deriving DecidableEq, Repr

/-- `DescricaoBancoSerializer.update`: inside one transaction, deactivate
the other active siblings of the (possibly updated) `banco_id` when the
row ends up active, then apply the patch to the instance. -/
def applyDescPatch (pk : Nat) (p : DescPatch) (bid : String) (setAtiva : Bool)
    (now : Nat) (r : DescricaoBanco) : DescricaoBanco :=
  if r.pk = pk then
    { r with banco_id := bid,
             banco_nome := p.banco_nome.getD r.banco_nome,
             nome_banco := p.nome_banco.getD r.nome_banco,
             cnpj := p.cnpj.getD r.cnpj,
             endereco := p.endereco.getD r.endereco,
             is_ativa := setAtiva,
             atualizado_em := now }
  else r

def descricaoUpdate (db : List DescricaoBanco) (pk : Nat) (p : DescPatch)
    (now : Nat) : List DescricaoBanco :=
  match db.find? (fun r => r.pk = pk) with
  | none => db
  | some inst =>
    let setAtiva := p.is_ativa.getD inst.is_ativa
    let bid := p.banco_id.getD inst.banco_id
    let db :=
      if setAtiva = true ∧ bid ≠ "" then deactivateSiblings bid (some pk) db
      else db
    db.map (applyDescPatch pk p bid setAtiva now)

/-- `DescricaoBancoViewSet.set_ativa`: a partial update with
`is_ativa=True`. -/
def descricaoSetAtiva (db : List DescricaoBanco) (pk now : Nat) : List DescricaoBanco :=
  descricaoUpdate db pk (DescPatch.mk none none none none none (some true)) now

/-- `ContaBancariaSerializer._maybe_create_descricao_banco`: create a new
description variation from an account payload; a blank `banco_id` or
description is a no-op. -/
def maybe_create_descricao_banco (db : List DescricaoBanco)
    (banco_id banco_nome descricao : String) (setAtiva : Bool)
    (newPk now : Nat) : List DescricaoBanco :=
  let bid := pyStrip banco_id
  let d := pyStrip descricao
  if bid = "" ∨ d = "" then db
  else
    let db := if setAtiva then deactivateSiblings bid none db else db
    db ++ [DescricaoBanco.mk newPk bid banco_nome d "" "" "" setAtiva now]

/-! ### The render pipelines

`PetitionViewSet.render` and `TemplateViewSet.render` are pure functions of
their inputs once the substitution engine (docxtpl + Jinja, an external
library) is abstracted as a parameter that either produces the output
bytes or fails with an exception message. -/

/-- A JSON-like context value as Python sees it. -/
inductive PyVal where
  | vStr (s : String)
  | vInt (n : Int)
  | vBool (b : Bool)
  | vNull
  | vList (elems : List PyVal)
  | vImage (path : String)

/-- Python truthiness of a context value. -/
def truthy : PyVal → Bool
  | .vStr s => s ≠ ""
  | .vInt n => n ≠ 0
  | .vBool b => b
  | .vNull => false
  | .vList l => ¬ l.isEmpty
  | .vImage _ => true

/-- The local `is_empty` of `PetitionViewSet.render` applied to
`context.get(f)`: absent, `None`, or a blank string. -/
def ctxValueEmpty : Option PyVal → Bool
  | none => true
  | some .vNull => true
  | some (.vStr s) => pyStrip s = ""
  | some _ => false

/-- A data map (Python dict), looked up by first occurrence. -/
abbrev Ctx := List (String × PyVal)

/-- Python `d.get(k)` (as `Option`). -/
def ctxGet (ctx : Ctx) (k : String) : Option PyVal :=
  (ctx.find? (fun p => p.1 = k)).map (·.2)

/-- Python `d[k] = v`: replace the binding in place or append it. -/
def ctxSet (ctx : Ctx) (k : String) (v : PyVal) : Ctx :=
  match ctx with
  | [] => [(k, v)]
  | (k2, v2) :: rest => if k2 = k then (k, v) :: rest else (k2, v2) :: ctxSet rest k v

/-- Python `d.setdefault(k, v)`. -/
def ctxSetDefault (ctx : Ctx) (k : String) (v : PyVal) : Ctx :=
  if (ctxGet ctx k).isSome then ctx else ctxSet ctx k v

/-- Python `{**base, **override}`. -/
def mergeCtx (base ov : Ctx) : Ctx :=
  ov.foldl (fun acc p => ctxSet acc p.1 p.2) base

/-- The key set of the data map. -/
def ctxKeys (ctx : Ctx) : List String := ctx.map (·.1)

/-- The fallback bank name of `PetitionViewSet.render`:
`getattr(conta_principal, "banco_nome", "") or ""`. -/
def fallback_banco_nome (cl : Cliente) : String :=
  match cl.contas.find? (fun c => c.is_principal) with
  | some c => c.banco_nome
  | none => ""

/-- The legacy `banco` step of the Context Resolver: fill the single-string
field whenever its current value is Python-falsy. -/
def bank_fill_banco (desc : Option BancoDesc) (fb : String) (ctx : Ctx) : Ctx :=
  if truthy ((ctxGet ctx "banco").getD .vNull) then ctx
  else ctxSet ctx "banco" (.vStr (format_banco_string desc fb))

/-- The flat-field step of the Context Resolver: fill each of
`nome_banco`, `cnpj`, `endereco_banco` that is absent, `None` or blank. -/
def bank_fill_flat (d : BancoDesc) (ctx : Ctx) : Ctx :=
  let ctx :=
    if ctxValueEmpty (ctxGet ctx "nome_banco") then
      ctxSet ctx "nome_banco" (.vStr d.nome_banco) else ctx
  let ctx :=
    if ctxValueEmpty (ctxGet ctx "cnpj") then
      ctxSet ctx "cnpj" (.vStr d.cnpj) else ctx
  if ctxValueEmpty (ctxGet ctx "endereco_banco") then
    ctxSet ctx "endereco_banco" (.vStr d.endereco_banco) else ctx

/-- The Context Resolver of `PetitionViewSet.render` (the block guarded by
`if petition.cliente`): synthesise the legacy `banco` string when the
current value is falsy, and fill the flat bank fields that are empty from
the active description. -/
def bank_fill (cliente : Option Cliente) (db : List DescricaoBanco) (ctx : Ctx) : Ctx :=
  match cliente with
  | none => ctx
  | some cl =>
    match get_banco_descricao_ativa (cl.contas.find? (fun c => c.is_principal)) db with
    | none => bank_fill_banco none (fallback_banco_nome cl) ctx
    | some d => bank_fill_flat d (bank_fill_banco (some d) (fallback_banco_nome cl) ctx)

/-- The contracts block of `PetitionViewSet.render`: always (re)sets the
three contract keys; the queried rows are abstracted as `contratosRows`. -/
def contratos_fill (cliente : Option Cliente) (contratosRows : List PyVal)
    (contratosIds : PyVal) (ctx : Ctx) : Ctx :=
  let cs := if cliente.isSome then contratosRows else []
  let ctx := ctxSet ctx "contratos" (.vList cs)
  let ctx := ctxSet ctx "total_contratos" (.vInt cs.length)
  ctxSet ctx "contratos_ids_utilizados" contratosIds

/-- The result of `PetitionViewSet._validate_context_against_template`. -/
structure ValidationCheck where
  synClass : String
  required : List String
  missing : List String
  hasAngle : Bool
deriving DecidableEq, Repr

/-- `PetitionViewSet._validate_context_against_template`. -/
def validate_context_against_template (arch : Archive) (ctx : Ctx) : ValidationCheck :=
  let ef := extract_jinja_fields arch
  let required := ef.2.map (·.name)
  let provided := ctxKeys ctx
  ValidationCheck.mk ef.1 required
    (required.filter (fun f => ¬ provided.contains f))
    (detect_angle_brackets arch)

/-- `bool(request.data.get("strict", True))` for a boolean-or-absent
parameter. -/
def strictFlag : Option Bool → Bool
  | none => true
  | some b => b

/-- The outcome of `PetitionViewSet.render`. -/
inductive RenderResp where
  | depUnavailable
  | templateMissing
  | unmigrated
  | missingVars (missing required : List String)
  | rendered (payload : String)
  | renderFailed (msg : String)
deriving DecidableEq, Repr

/-- `PetitionViewSet.render`: merge the stored context with the override,
resolve bank fields, attach contracts, then gate (template present, no
legacy tokens, no missing variables under strict) and finally run the
engine, catching any engine failure as a structured error. -/
def petition_render
    (docxtplAvailable : Bool)
    (baseCtx override : Ctx)
    (cliente : Option Cliente)
    (tpl : Option Archive)
    (strictParam : Option Bool)
    (contratosRows : List PyVal)
    (contratosIds : PyVal)
    (db : List DescricaoBanco)
    (engine : Archive → Ctx → Except String String) : RenderResp :=
  if ¬ docxtplAvailable then .depUnavailable
  else
    let ctx := mergeCtx baseCtx override
    let ctx := bank_fill cliente db ctx
    let ctx := contratos_fill cliente contratosRows contratosIds ctx
    let strict := strictFlag strictParam
    match tpl with
    | none => .templateMissing
    | some arch =>
      let check := validate_context_against_template arch ctx
      if check.hasAngle then .unmigrated
      else if strict ∧ ¬ check.missing.isEmpty then
        .missingVars check.missing check.required
      else
        match engine arch ctx with
        | .ok payload => .rendered payload
        | .error e => .renderFailed e

/-- The client prefill block of `TemplateViewSet.render` (`setdefault`
semantics; the bank description is matched on the raw account name and
its free-text `descricao` field is used). -/
def cliente_prefill (cliente : Option Cliente) (db : List DescricaoBanco)
    (ctx : Ctx) : Ctx :=
  match cliente with
  | none => ctx
  | some cl =>
    match cl.contas.find? (fun c => c.is_principal) with
    | none => ctx
    | some conta =>
      let desc := firstMaxBy (fun r => (r.atualizado_em, 0))
        (db.filter (fun r => r.banco_nome = conta.banco_nome ∧ r.is_ativa = true))
      let bancoVal := match desc with
        | some d => d.descricao
        | none => conta.banco_nome
      let ctx := ctxSetDefault ctx "banco" (.vStr bancoVal)
      let ctx := ctxSetDefault ctx "nome_completo" (.vStr cl.nome_completo)
      let ctx := ctxSetDefault ctx "cpf" (.vStr cl.cpf)
      ctxSetDefault ctx "cidade" (.vStr cl.cidade)

/-- Strip a leading `/media/` or `media/` from a stored-file reference. -/
def dropMediaPfx (s : String) : String :=
  if strStarts s "/media/" then String.mk (s.data.drop 7)
  else if strStarts s "media/" then String.mk (s.data.drop 6)
  else s

/-- The inline-image block of `TemplateViewSet.render`: a non-blank string
under `imagem_do_contrato` is resolved against the media root and replaced
by an inline image when the file exists; otherwise it is left in place. -/
def image_resolve (inlineImageAvailable : Bool) (mediaExists : String → Bool)
    (ctx : Ctx) : Ctx :=
  match ctxGet ctx "imagem_do_contrato" with
  | some (.vStr s) =>
    if inlineImageAvailable ∧ pyStrip s ≠ "" then
      let raw := dropMediaPfx (pyStrip s)
      if mediaExists raw then ctxSet ctx "imagem_do_contrato" (.vImage raw)
      else ctx
    else ctx
  | _ => ctx

/-- The outcome of `TemplateViewSet.render`. -/
inductive TplRenderResp where
  | depUnavailable
  | unmigrated
  | invalidExpr (bad : List String)
  | rendered (payload : String)
  | renderFailed (msg : String)
deriving DecidableEq, Repr

/-- `TemplateViewSet.render`: reject on legacy tokens, then on invalid
print expressions, prefill from the client, resolve the image, then run
the engine, catching any engine failure as a structured error. -/
def template_render
    (docxtplAvailable inlineImageAvailable : Bool)
    (arch : Archive)
    (reqCtx : Ctx)
    (cliente : Option Cliente)
    (db : List DescricaoBanco)
    (mediaExists : String → Bool)
    (engine : Archive → Ctx → Except String String) : TplRenderResp :=
  if ¬ docxtplAvailable then .depUnavailable
  else if detect_angle_brackets arch then .unmigrated
  else
    let bad := find_invalid_jinja_prints arch
    if ¬ bad.isEmpty then .invalidExpr bad
    else
      let ctx := cliente_prefill cliente db reqCtx
      let ctx := image_resolve inlineImageAvailable mediaExists ctx
      match engine arch ctx with
      | .ok payload => .rendered payload
      | .error e => .renderFailed e

/-- The `syntax` value of the `TemplateViewSet.fields` response:
`"jinja (mixed: angle present)" if has_angle else syntax`. -/
def fields_endpoint_syn (arch : Archive) : String :=
  if detect_angle_brackets arch then "jinja (mixed: angle present)"
  else (extract_jinja_fields arch).1

/-! ### Data-map lemmas -/

theorem ctxGet_cons_self (k : String) (v : PyVal) (ctx : Ctx) :
    ctxGet ((k, v) :: ctx) k = some v := by
  simp [ctxGet, List.find?]

theorem ctxGet_cons_ne (k2 : String) (v2 : PyVal) (ctx : Ctx) (k : String)
    (h : k2 ≠ k) : ctxGet ((k2, v2) :: ctx) k = ctxGet ctx k := by
  simp [ctxGet, List.find?, h]

theorem ctxGet_ctxSet_self (ctx : Ctx) (k : String) (v : PyVal) :
    ctxGet (ctxSet ctx k v) k = some v := by
  induction ctx with
  | nil => exact ctxGet_cons_self k v []
  | cons p rest ih =>
    obtain ⟨k2, v2⟩ := p
    rw [ctxSet]
    by_cases hk : k2 = k
    · rw [if_pos hk]
      exact ctxGet_cons_self k v rest
    · rw [if_neg hk]
      rw [ctxGet_cons_ne k2 v2 (ctxSet rest k v) k hk]
      exact ih

theorem ctxGet_ctxSet_ne (ctx : Ctx) (k k2 : String) (v : PyVal) (h : k2 ≠ k) :
    ctxGet (ctxSet ctx k v) k2 = ctxGet ctx k2 := by
  induction ctx with
  | nil =>
    rw [ctxSet]
    rw [ctxGet_cons_ne k v [] k2 (Ne.symm h)]
  | cons p rest ih =>
    obtain ⟨k3, v3⟩ := p
    rw [ctxSet]
    by_cases hk3 : k3 = k
    · subst hk3
      rw [if_pos rfl]
      rw [ctxGet_cons_ne k3 v rest k2 (Ne.symm h)]
      rw [ctxGet_cons_ne k3 v3 rest k2 (Ne.symm h)]
    · rw [if_neg hk3]
      by_cases hk32 : k3 = k2
      · subst hk32
        rw [ctxGet_cons_self k3 v3 (ctxSet rest k v)]
        rw [ctxGet_cons_self k3 v3 rest]
      · rw [ctxGet_cons_ne k3 v3 (ctxSet rest k v) k2 hk32]
        rw [ctxGet_cons_ne k3 v3 rest k2 hk32]
        exact ih

theorem ctxGet_condSet_ne (ctx : Ctx) (k k2 : String) (v : PyVal) (c : Prop)
    [Decidable c] (h : k2 ≠ k) :
    ctxGet (if c then ctxSet ctx k v else ctx) k2 = ctxGet ctx k2 := by
  split
  · exact ctxGet_ctxSet_ne ctx k k2 v h
  · rfl

/-! ### Claims -/

/-- A document whose only text part carries a legacy-bracket token written
literally in the part text. -/
def c3arch : Archive :=
  [ArchivePart.mk "word/document.xml" "texto << cidade >> fim"]

/-- Claim C3 (code bug).  The dual Scanner `extract_fields` does find the
legacy token `<< cidade >>` in `c3arch` (classification `"angle"`), yet the
Validation Gate's detector `detect_angle_brackets` reports no legacy token
— its markup-stripping pass `re.sub("<[^>]+>", "")` deletes everything
from `<<` to the first `>` — so both render endpoints proceed to render
the document instead of rejecting it with the unmigrated-syntax error that
the views' own documentation promises. -/
theorem c3_gate_misses_legacy_tokens :
    scanAngles "texto << cidade >> fim".data = ["cidade"] ∧
    (extract_fields c3arch).synClass = "angle" ∧
    detect_angle_brackets c3arch = false ∧
    petition_render true [] [] none (some c3arch) none [] .vNull []
      (fun _ _ => .ok "artifact") = .rendered "artifact" ∧
    template_render true true c3arch [] none [] (fun _ => false)
      (fun _ _ => .ok "artifact") = .rendered "artifact" :=
  ⟨by decide, by decide, by rfl, by rfl, by rfl⟩

/-- Claim C4.  When the strict flag resolves to true (it defaults to true
when absent) and the template requires a variable absent from the final
data map, `PetitionViewSet.render` rejects with the missing-variables
error carrying both the missing list and the full required list, and the
engine is never consulted; the missing list is exactly the required names
not among the final map's keys. -/
theorem c4_strict_missing_variables
    (base ov : Ctx) (cliente : Option Cliente) (arch : Archive)
    (strictParam : Option Bool) (rows : List PyVal) (ids : PyVal)
    (db : List DescricaoBanco) (engine : Archive → Ctx → Except String String)
    (hstrict : strictFlag strictParam = true)
    (hangle : (validate_context_against_template arch
      (contratos_fill cliente rows ids (bank_fill cliente db (mergeCtx base ov)))).hasAngle = false)
    (hmiss : (validate_context_against_template arch
      (contratos_fill cliente rows ids (bank_fill cliente db (mergeCtx base ov)))).missing ≠ []) :
    petition_render true base ov cliente (some arch) strictParam rows ids db engine =
      .missingVars
        (validate_context_against_template arch
          (contratos_fill cliente rows ids (bank_fill cliente db (mergeCtx base ov)))).missing
        (validate_context_against_template arch
          (contratos_fill cliente rows ids (bank_fill cliente db (mergeCtx base ov)))).required ∧
    (validate_context_against_template arch
      (contratos_fill cliente rows ids (bank_fill cliente db (mergeCtx base ov)))).missing =
      (validate_context_against_template arch
        (contratos_fill cliente rows ids (bank_fill cliente db (mergeCtx base ov)))).required.filter
        (fun n => ¬ (ctxKeys (contratos_fill cliente rows ids
          (bank_fill cliente db (mergeCtx base ov)))).contains n) := by
  constructor
  · simp [petition_render, hangle, hstrict, List.isEmpty_iff, hmiss]
  · rfl

/-- The spec's example template, requiring `nome_completo` and `cpf`. -/
def c4arch : Archive :=
  [ArchivePart.mk "word/document.xml"
    "\x7b\x7b nome_completo \x7d\x7d \x7b\x7b cpf \x7d\x7d"]

/-- Witness for C4: the spec's scenario.  Data map
`{"nome_completo": "Ana Silva"}` with the strict flag absent yields
`missing = ["cpf"]`, `required = ["cpf", "nome_completo"]`, with no
rendering attempted (the engine is arbitrary). -/
theorem c4_strict_missing_variables_witness :
    petition_render true [("nome_completo", .vStr "Ana Silva")] [] none
      (some c4arch) none [] .vNull [] (fun _ _ => .ok "never") =
      .missingVars ["cpf"] ["cpf", "nome_completo"] := by
  rw [c4_strict_missing_variables [("nome_completo", PyVal.vStr "Ana Silva")] []
    none c4arch none [] PyVal.vNull [] (fun _ _ => Except.ok "never")
    (by decide) (by decide) (by decide) |>.1]
  rfl

/-- A template whose only print expression is a dotted path. -/
def c10arch : Archive :=
  [ArchivePart.mk "word/document.xml" "\x7b\x7b cliente.nome \x7d\x7d"]

/-- Claim C10.  The scanner used by the render pipeline normalises every
captured variable with `_snake_case`, which replaces dots by underscores,
so the Gate requires the flattened key: for the template
`{{ cliente.nome }}`, the required name is `cliente_nome`; a data map
holding only the head identifier `cliente` is rejected as missing
`cliente_nome`, while one holding `cliente_nome` passes. -/
theorem c10_dotted_paths_flattened :
    (∀ arch : Archive, ((extract_jinja_fields arch).2).map (fun f => f.name) =
      (sortedUniq (scanJinjaVars (read_xml_from_docx arch))).map snake_case) ∧
    snake_case "cliente.nome" = "cliente_nome" ∧
    (∀ v : PyVal,
      (validate_context_against_template c10arch [("cliente", v)]).required =
        ["cliente_nome"] ∧
      (validate_context_against_template c10arch [("cliente", v)]).missing =
        ["cliente_nome"] ∧
      (validate_context_against_template c10arch [("cliente_nome", v)]).missing = []) := by
  refine ⟨fun arch => ?_, by decide, fun v => ⟨?_, ?_, ?_⟩⟩
  · simp [extract_jinja_fields, List.map_map]
  · rfl
  · rfl
  · rfl

/-- A document with nested legacy brackets. -/
def c6arch : Archive := [ArchivePart.mk "word/document.xml" "<<<<x>>>>"]

/-- Counterexample to claim C6 as stated: the Migrator is not idempotent.
On the nested token (empty mapping) one run rewrites the inner token only,
producing a part that still parses as a legacy token, so a second run
rewrites again: the two outputs differ byte for byte. -/
theorem c6_counterexample :
    convert_angle_to_jinja [] (convert_angle_to_jinja [] c6arch) ≠
      convert_angle_to_jinja [] c6arch ∧
    convert_angle_to_jinja [] c6arch =
      [ArchivePart.mk "word/document.xml" "<<\x7b\x7b x \x7d\x7d>>"] ∧
    convert_angle_to_jinja [] (convert_angle_to_jinja [] c6arch) =
      [ArchivePart.mk "word/document.xml" "\x7b\x7b x \x7d\x7d"] :=
  ⟨by decide, by decide, by decide⟩

/-- Claim C6 as amended.  The conversion is a pure, deterministic text
rewrite, and it is idempotent exactly under the condition the spec gives
as its justification: whenever the once-converted archive's `word/*.xml`
parts contain no remaining legacy-bracket token (which nested tokens, or
mapping values containing legacy brackets, can defeat), the second run is
a no-op. -/
theorem c6_migrator_idempotent_when_clean
    (m : List (String × String)) (arch : Archive)
    (h : ∀ p ∈ convert_angle_to_jinja m arch,
      isWordXmlName p.name = true → hasAngleL p.data.data = false) :
    convert_angle_to_jinja m (convert_angle_to_jinja m arch) =
      convert_angle_to_jinja m arch := by
  conv =>
    rhs
    rw [show convert_angle_to_jinja m arch =
      (convert_angle_to_jinja m arch).map id from (List.map_id _).symm]
  rw [convert_angle_to_jinja]
  apply List.map_congr_left
  intro p hp
  by_cases hw : isWordXmlName p.name = true
  · rw [if_pos hw]
    have hna := h p hp hw
    rw [angleSubL_of_no_angle hna]
    rfl
  · rw [if_neg hw]
    rfl

/-- Witness for the amended C6 at a flat single-token document. -/
theorem c6_migrator_idempotent_when_clean_witness :
    convert_angle_to_jinja []
        (convert_angle_to_jinja [] [ArchivePart.mk "word/document.xml" "<< a >>"]) =
      convert_angle_to_jinja [] [ArchivePart.mk "word/document.xml" "<< a >>"] :=
  c6_migrator_idempotent_when_clean [] [ArchivePart.mk "word/document.xml" "<< a >>"]
    (by decide)

/-- An archive part that is not text-bearing by either Scanner's part
filter, carrying a legacy token. -/
def c7arch : Archive := [ArchivePart.mk "word/styles.xml" "<<x>>"]

/-- Counterexample to claim C7 as stated: `word/styles.xml` is not a
text-bearing part (neither Scanner reads it), yet the Migrator rewrites
it, so the output part is not byte-identical to the input. -/
theorem c7_counterexample :
    iterReadsPart "word/styles.xml" = false ∧
    jinjaReadsPart "word/styles.xml" = false ∧
    convert_angle_to_jinja [] c7arch ≠ c7arch ∧
    convert_angle_to_jinja [] c7arch =
      [ArchivePart.mk "word/styles.xml" "\x7b\x7b x \x7d\x7d"] :=
  ⟨by decide, by decide, by decide, by decide⟩

/-- Claim C7 as amended.  The Migrator rewrites exactly the parts named
`word/*.xml` — a superset of the text-bearing parts the Scanners read —
and copies every part outside that set byte-identically, in place. -/
theorem c7_nonword_parts_verbatim (m : List (String × String)) (arch : Archive) :
    (convert_angle_to_jinja m arch).length = arch.length ∧
    (∀ (i : Nat) (p : ArchivePart), arch[i]? = some p →
      isWordXmlName p.name = false → (convert_angle_to_jinja m arch)[i]? = some p) := by
  refine ⟨by simp [convert_angle_to_jinja], fun i p hp hw => ?_⟩
  have hmap : (convert_angle_to_jinja m arch)[i]? =
      (arch[i]?).map (fun q => if isWordXmlName q.name then
        ArchivePart.mk q.name (String.mk (angleSubL m q.data.data)) else q) := by
    unfold convert_angle_to_jinja
    exact List.getElem?_map _ arch i
  rw [hmap, hp]
  simp [hw]

/-- Witness for the amended C7: a part outside `word/*.xml` carrying a
legacy token is still copied verbatim. -/
theorem c7_nonword_parts_verbatim_witness :
    (convert_angle_to_jinja [] [ArchivePart.mk "docProps/core.xml" "<<x>>"])[0]? =
      some (ArchivePart.mk "docProps/core.xml" "<<x>>") :=
  (c7_nonword_parts_verbatim [] [ArchivePart.mk "docProps/core.xml" "<<x>>"]).2
    0 (ArchivePart.mk "docProps/core.xml" "<<x>>") (by rfl) (by decide)

theorem bank_fill_banco_get_ne (desc : Option BancoDesc) (fb : String) (ctx : Ctx)
    (f : String) (h : f ≠ "banco") :
    ctxGet (bank_fill_banco desc fb ctx) f = ctxGet ctx f := by
  unfold bank_fill_banco
  split
  · rfl
  · exact ctxGet_ctxSet_ne ctx "banco" f _ h

theorem bank_fill_banco_of_truthy (desc : Option BancoDesc) (fb : String) (ctx : Ctx)
    (v : String) (hv : ctxGet ctx "banco" = some (.vStr v)) (hvne : v ≠ "") :
    bank_fill_banco desc fb ctx = ctx := by
  unfold bank_fill_banco
  rw [if_pos]
  rw [hv]
  simpa [truthy] using hvne

theorem condSet_empty_preserves (ctx : Ctx) (k : String) (w : PyVal)
    (f : String) (v : String)
    (hfv : ctxGet ctx f = some (.vStr v)) (hne : pyStrip v ≠ "") :
    ctxGet (if ctxValueEmpty (ctxGet ctx k) then ctxSet ctx k w else ctx) f =
      some (.vStr v) := by
  by_cases hfk : f = k
  · subst hfk
    rw [if_neg (by rw [hfv]; simpa [ctxValueEmpty] using hne)]
    exact hfv
  · rw [ctxGet_condSet_ne ctx k f w _ hfk]
    exact hfv

theorem bank_fill_flat_preserves (d : BancoDesc) (ctx : Ctx) (f : String) (v : String)
    (hfv : ctxGet ctx f = some (.vStr v)) (hne : pyStrip v ≠ "") :
    ctxGet (bank_fill_flat d ctx) f = some (.vStr v) := by
  unfold bank_fill_flat
  exact condSet_empty_preserves _ _ _ _ _
    (condSet_empty_preserves _ _ _ _ _
      (condSet_empty_preserves _ _ _ _ _ hfv hne) hne) hne

/-- A primary account with code `341`, and an active description for that
code whose structured fields are all filled. -/
def c5cli : Cliente :=
  Cliente.mk "Ana" "123" "SP" [ContaBancaria.mk "Banco X (341)" "341" true]

/-- The description registry for the C5 counterexample. -/
def c5db : List DescricaoBanco :=
  [DescricaoBanco.mk 1 "341" "Banco X" "d" "Banco X SA" "00.000.000/0001-00"
    "Rua A" true 10]

/-- Counterexample to claim C5 as stated: the caller supplies the value
`0` for the legacy `banco` field — a value that is neither absent nor
empty — and the Context Resolver overwrites it, because the fill condition
for `banco` is Python falsiness (`if not context.get("banco")`), not
emptiness. -/
theorem c5_counterexample :
    ctxGet [("banco", PyVal.vInt 0)] "banco" = some (.vInt 0) ∧
    ctxValueEmpty (some (.vInt 0)) = false ∧
    ctxGet (bank_fill (some c5cli) c5db [("banco", .vInt 0)]) "banco" =
      some (.vStr "Banco X SA — CNPJ: 00.000.000/0001-00 — Rua A") :=
  ⟨rfl, rfl, rfl⟩

theorem bank_fill_banco_of_truthy_any (desc : Option BancoDesc) (fb : String)
    (ctx : Ctx) (w : PyVal) (hv : ctxGet ctx "banco" = some w)
    (hw : truthy w = true) :
    bank_fill_banco desc fb ctx = ctx := by
  unfold bank_fill_banco
  rw [if_pos]
  rw [hv]
  simpa using hw

theorem condSet_nonempty_preserves (ctx : Ctx) (k : String) (w : PyVal)
    (f : String) (v : PyVal)
    (hfv : ctxGet ctx f = some v) (hne : ctxValueEmpty (some v) = false) :
    ctxGet (if ctxValueEmpty (ctxGet ctx k) then ctxSet ctx k w else ctx) f =
      some v := by
  by_cases hfk : f = k
  · subst hfk
    rw [if_neg (by rw [hfv]; simp [hne])]
    exact hfv
  · rw [ctxGet_condSet_ne ctx k f w _ hfk]
    exact hfv

theorem bank_fill_flat_nonempty_preserves (d : BancoDesc) (ctx : Ctx)
    (f : String) (v : PyVal) (hfv : ctxGet ctx f = some v)
    (hne : ctxValueEmpty (some v) = false) :
    ctxGet (bank_fill_flat d ctx) f = some v := by
  unfold bank_fill_flat
  exact condSet_nonempty_preserves _ _ _ _ _
    (condSet_nonempty_preserves _ _ _ _ _
      (condSet_nonempty_preserves _ _ _ _ _ hfv hne) hne) hne

theorem bank_fill_flat_get_ne (d : BancoDesc) (ctx : Ctx) (f : String)
    (h1 : f ≠ "nome_banco") (h2 : f ≠ "cnpj") (h3 : f ≠ "endereco_banco") :
    ctxGet (bank_fill_flat d ctx) f = ctxGet ctx f := by
  unfold bank_fill_flat
  dsimp only
  rw [ctxGet_condSet_ne _ _ _ _ _ h3, ctxGet_condSet_ne _ _ _ _ _ h2,
    ctxGet_condSet_ne _ _ _ _ _ h1]

theorem contratos_fill_get_ne (cliente : Option Cliente) (rows : List PyVal)
    (ids : PyVal) (ctx : Ctx) (f : String) (h1 : f ≠ "contratos")
    (h2 : f ≠ "total_contratos") (h3 : f ≠ "contratos_ids_utilizados") :
    ctxGet (contratos_fill cliente rows ids ctx) f = ctxGet ctx f := by
  unfold contratos_fill
  rw [ctxGet_ctxSet_ne _ _ _ _ h3, ctxGet_ctxSet_ne _ _ _ _ h2,
    ctxGet_ctxSet_ne _ _ _ _ h1]

/-- The one bank-merge frame lemma: a key whose current value is truthy
when the key is `banco`, and neither absent, `None` nor blank when the key
is one of the flat bank fields, passes through the whole bank fill
unchanged (any other key is untouched by it). -/
theorem bank_fill_preserves_key (cliente : Option Cliente)
    (db : List DescricaoBanco) (ctx : Ctx) (f : String) (v : PyVal)
    (hv : ctxGet ctx f = some v)
    (hbanco : f = "banco" → truthy v = true)
    (hflat : (f = "nome_banco" ∨ f = "cnpj" ∨ f = "endereco_banco") →
      ctxValueEmpty (some v) = false) :
    ctxGet (bank_fill cliente db ctx) f = some v := by
  cases cliente with
  | none => exact hv
  | some cl =>
    show ctxGet (match get_banco_descricao_ativa
        (cl.contas.find? (fun c => c.is_principal)) db with
      | none => bank_fill_banco none (fallback_banco_nome cl) ctx
      | some d => bank_fill_flat d
          (bank_fill_banco (some d) (fallback_banco_nome cl) ctx)) f =
      some v
    have hstep : ∀ desc : Option BancoDesc,
        ctxGet (bank_fill_banco desc (fallback_banco_nome cl) ctx) f =
          some v := by
      intro desc
      by_cases hfb : f = "banco"
      · subst hfb
        rw [bank_fill_banco_of_truthy_any desc _ ctx v hv (hbanco rfl)]
        exact hv
      · rw [bank_fill_banco_get_ne desc _ ctx f hfb]
        exact hv
    cases get_banco_descricao_ativa
        (cl.contas.find? (fun c => c.is_principal)) db with
    | none => exact hstep none
    | some d =>
      by_cases hff : f = "nome_banco" ∨ f = "cnpj" ∨ f = "endereco_banco"
      · exact bank_fill_flat_nonempty_preserves d _ f v (hstep (some d))
          (hflat hff)
      · push_neg at hff
        rw [bank_fill_flat_get_ne d _ f hff.1 hff.2.1 hff.2.2]
        exact hstep (some d)

/-- Claim C5 as amended.  The Context Resolver is additive under
per-field presence tests that differ by field: the legacy `banco` key is
preserved whenever its current value is Python-truthy, of any type; the
flat fields `nome_banco`, `cnpj` and `endereco_banco` are preserved
whenever present and neither `None` nor a blank string, so a
caller-supplied `0` is kept there; and every caller-supplied non-blank
string in any of the four bank fields survives the resolver and the
contracts step unchanged.  The claim as stated fails only for falsy
`banco` values: that guard is `if not context.get("banco")`
(truthiness), so a caller-supplied falsy value such as the integer `0`
is overwritten — the counterexample. -/
theorem c5_caller_nonempty_strings_preserved
    (cliente : Option Cliente) (db : List DescricaoBanco) (ctx : Ctx)
    (rows : List PyVal) (ids : PyVal) :
    (∀ f v,
      (f = "banco" ∨ f = "nome_banco" ∨ f = "cnpj" ∨ f = "endereco_banco") →
      ctxGet ctx f = some (.vStr v) → pyStrip v ≠ "" →
      ctxGet (contratos_fill cliente rows ids (bank_fill cliente db ctx)) f =
        some (.vStr v)) ∧
    (∀ w, ctxGet ctx "banco" = some w → truthy w = true →
      ctxGet (contratos_fill cliente rows ids (bank_fill cliente db ctx))
        "banco" = some w) ∧
    (∀ f w, (f = "nome_banco" ∨ f = "cnpj" ∨ f = "endereco_banco") →
      ctxGet ctx f = some w → ctxValueEmpty (some w) = false →
      ctxGet (contratos_fill cliente rows ids (bank_fill cliente db ctx)) f =
        some w) := by
  refine ⟨?_, ?_, ?_⟩
  · intro f v hf hv hne
    have hvne : v ≠ "" := fun he => hne (by rw [he]; rfl)
    rw [contratos_fill_get_ne _ _ _ _ f
      (by rcases hf with h | h | h | h <;> subst h <;> decide)
      (by rcases hf with h | h | h | h <;> subst h <;> decide)
      (by rcases hf with h | h | h | h <;> subst h <;> decide)]
    exact bank_fill_preserves_key cliente db ctx f _ hv
      (fun _ => by simpa [truthy] using hvne)
      (fun _ => by simpa [ctxValueEmpty] using hne)
  · intro w hv hw
    rw [contratos_fill_get_ne _ _ _ _ "banco" (by decide) (by decide)
      (by decide)]
    exact bank_fill_preserves_key cliente db ctx "banco" w hv (fun _ => hw)
      (fun hor => by rcases hor with h | h | h <;> exact absurd h (by decide))
  · intro f w hf hv hne
    rw [contratos_fill_get_ne _ _ _ _ f
      (by rcases hf with h | h | h <;> subst h <;> decide)
      (by rcases hf with h | h | h <;> subst h <;> decide)
      (by rcases hf with h | h | h <;> subst h <;> decide)]
    exact bank_fill_preserves_key cliente db ctx f w hv
      (fun hb => by
        rcases hf with h | h | h <;> subst h <;> exact absurd hb (by decide))
      (fun _ => hne)

/-- Witness for the amended C5: a caller-supplied non-blank string
`nome_banco`, a truthy non-string `banco` (the integer `5`) and a
non-empty non-string `cnpj` (the integer `0`) all survive, even though
the active description would supply different values. -/
theorem c5_caller_nonempty_strings_preserved_witness :
    ctxGet (contratos_fill (some c5cli) [] PyVal.vNull
        (bank_fill (some c5cli) c5db [("nome_banco", .vStr "Meu Banco")]))
      "nome_banco" = some (.vStr "Meu Banco") ∧
    ctxGet (contratos_fill (some c5cli) [] PyVal.vNull
        (bank_fill (some c5cli) c5db [("banco", .vInt 5)]))
      "banco" = some (.vInt 5) ∧
    ctxGet (contratos_fill (some c5cli) [] PyVal.vNull
        (bank_fill (some c5cli) c5db [("cnpj", .vInt 0)]))
      "cnpj" = some (.vInt 0) :=
  ⟨(c5_caller_nonempty_strings_preserved (some c5cli) c5db
      [("nome_banco", PyVal.vStr "Meu Banco")] [] PyVal.vNull).1
      "nome_banco" "Meu Banco" (Or.inr (Or.inl rfl)) rfl (by decide),
   (c5_caller_nonempty_strings_preserved (some c5cli) c5db
      [("banco", PyVal.vInt 5)] [] PyVal.vNull).2.1
      (PyVal.vInt 5) rfl (by decide),
   (c5_caller_nonempty_strings_preserved (some c5cli) c5db
      [("cnpj", PyVal.vInt 0)] [] PyVal.vNull).2.2
      "cnpj" (PyVal.vInt 0) (Or.inr (Or.inl rfl)) rfl rfl⟩

/-- A document carrying one expression token and one legacy token in the
same text part. -/
def c9arch : Archive :=
  [ArchivePart.mk "word/document.xml" "\x7b\x7b a \x7d\x7d e << b >>"]

/-- Counterexample to claim C9 as stated: on a document where expression
and legacy tokens co-occur, both the dual Scanner and the fields endpoint
classify plain `"jinja"` with no mixed indication — the endpoint's mixed
marker stays off because `detect_angle_brackets` does not survive the
markup stripping (see C3) — contradicting the claimed
"mixed indication when legacy tokens co-occur". -/
theorem c9_counterexample :
    jinjaNamesRaw c9arch ≠ [] ∧
    angleNamesRaw c9arch ≠ [] ∧
    (extract_fields c9arch).synClass = "jinja" ∧
    fields_endpoint_syn c9arch = "jinja" ∧
    fields_endpoint_syn c9arch ≠ "jinja (mixed: angle present)" :=
  ⟨by decide, by decide, by decide, by decide, by decide⟩

/-- Claim C9 as amended.  The dual Scanner `utils.extract_fields` follows
the precedence expression > legacy > unknown but carries no mixed
indication; the fields endpoint derives its classification from
`extract_jinja_fields` plus the (markup-stripping) legacy detector: it
reports the fixed mixed string whenever that detector fires — even with no
expression token present — and can never report the legacy
classification. -/
theorem c9_classification_precedence (arch : Archive) :
    (extract_fields arch).synClass =
      (if (jinjaNamesRaw arch).isEmpty then
        (if (angleNamesRaw arch).isEmpty then "unknown" else "angle")
       else "jinja") ∧
    fields_endpoint_syn arch =
      (if detect_angle_brackets arch then "jinja (mixed: angle present)"
       else (extract_jinja_fields arch).1) ∧
    fields_endpoint_syn arch ≠ "angle" := by
  refine ⟨?_, rfl, ?_⟩
  · unfold extract_fields
    dsimp only
    split
    · split <;> rfl
    · rfl
  · unfold fields_endpoint_syn
    split
    · decide
    · unfold extract_jinja_fields
      dsimp only
      split
      · split <;> decide
      · decide

/-- Claim C8.  The Renderer boundary is all-or-nothing: with an engine
that always raises (message `e`), each render endpoint returns one of its
structured pre-render rejections or exactly the structured error carrying
`e` — never a partial artifact and never a propagated exception; and in
the other direction a rendered artifact can only be the untouched output
of a successful engine call. -/
theorem c8_all_or_nothing
    (base ov : Ctx) (cliente : Option Cliente) (tpl : Option Archive)
    (sp : Option Bool) (rows : List PyVal) (ids : PyVal)
    (db : List DescricaoBanco) (avail iAvail : Bool) (arch : Archive)
    (reqCtx : Ctx) (mediaExists : String → Bool) (e payload : String)
    (engine : Archive → Ctx → Except String String) :
    (petition_render avail base ov cliente tpl sp rows ids db
        (fun _ _ => .error e) = .depUnavailable ∨
     petition_render avail base ov cliente tpl sp rows ids db
        (fun _ _ => .error e) = .templateMissing ∨
     petition_render avail base ov cliente tpl sp rows ids db
        (fun _ _ => .error e) = .unmigrated ∨
     (∃ ms rq, petition_render avail base ov cliente tpl sp rows ids db
        (fun _ _ => .error e) = .missingVars ms rq) ∨
     petition_render avail base ov cliente tpl sp rows ids db
        (fun _ _ => .error e) = .renderFailed e) ∧
    (petition_render avail base ov cliente tpl sp rows ids db engine =
        .rendered payload →
      ∃ arch2 ctx2, tpl = some arch2 ∧ engine arch2 ctx2 = .ok payload) ∧
    (template_render avail iAvail arch reqCtx cliente db mediaExists
        (fun _ _ => .error e) = .depUnavailable ∨
     template_render avail iAvail arch reqCtx cliente db mediaExists
        (fun _ _ => .error e) = .unmigrated ∨
     (∃ bad, template_render avail iAvail arch reqCtx cliente db mediaExists
        (fun _ _ => .error e) = .invalidExpr bad) ∨
     template_render avail iAvail arch reqCtx cliente db mediaExists
        (fun _ _ => .error e) = .renderFailed e) ∧
    (template_render avail iAvail arch reqCtx cliente db mediaExists engine =
        .rendered payload →
      ∃ ctx2, engine arch ctx2 = .ok payload) := by
  refine ⟨?_, ?_, ?_, ?_⟩
  · unfold petition_render
    split
    · left; rfl
    · cases tpl with
      | none => right; left; rfl
      | some arch2 =>
        dsimp only
        split
        · right; right; left; rfl
        · split
          · right; right; right; left; exact ⟨_, _, rfl⟩
          · right; right; right; right; rfl
  · intro h
    unfold petition_render at h
    split at h
    · exact RenderResp.noConfusion h
    · cases htpl : tpl with
      | none => simp only [htpl] at h; exact RenderResp.noConfusion h
      | some arch2 =>
        simp only [htpl] at h
        split at h
        · exact RenderResp.noConfusion h
        · split at h
          · exact RenderResp.noConfusion h
          · split at h
            · rename_i p heq
              have hp : p = payload := by simpa using h
              exact ⟨arch2, _, rfl, heq.trans (by rw [hp])⟩
            · exact RenderResp.noConfusion h
  · unfold template_render
    split
    · left; rfl
    · split
      · right; left; rfl
      · dsimp only
        split
        · right; right; left; exact ⟨_, rfl⟩
        · right; right; right; rfl
  · intro h
    unfold template_render at h
    split at h
    · exact TplRenderResp.noConfusion h
    · split at h
      · exact TplRenderResp.noConfusion h
      · dsimp only at h
        split at h
        · exact TplRenderResp.noConfusion h
        · split at h
          · rename_i p heq
            have hp : p = payload := by simpa using h
            exact ⟨_, heq.trans (by rw [hp])⟩
          · exact TplRenderResp.noConfusion h

/-- Witness for C8: with an always-failing engine the petition endpoint
reports exactly the structured error, and a successful render pins the
artifact to the engine output. -/
theorem c8_all_or_nothing_witness :
    (petition_render true [] [] none (some [ArchivePart.mk "word/document.xml" "oi"])
        none [] PyVal.vNull [] (fun _ _ => .error "boom") = .depUnavailable ∨
     petition_render true [] [] none (some [ArchivePart.mk "word/document.xml" "oi"])
        none [] PyVal.vNull [] (fun _ _ => .error "boom") = .templateMissing ∨
     petition_render true [] [] none (some [ArchivePart.mk "word/document.xml" "oi"])
        none [] PyVal.vNull [] (fun _ _ => .error "boom") = .unmigrated ∨
     (∃ ms rq, petition_render true [] [] none
        (some [ArchivePart.mk "word/document.xml" "oi"])
        none [] PyVal.vNull [] (fun _ _ => .error "boom") = .missingVars ms rq) ∨
     petition_render true [] [] none (some [ArchivePart.mk "word/document.xml" "oi"])
        none [] PyVal.vNull [] (fun _ _ => .error "boom") = .renderFailed "boom") ∧
    (∃ arch2 ctx2, some [ArchivePart.mk "word/document.xml" "oi"] = some arch2 ∧
      (fun (_ : Archive) (_ : Ctx) => Except.ok (ε := String) "B") arch2 ctx2 =
        .ok "B") :=
  ⟨(c8_all_or_nothing [] [] none (some [ArchivePart.mk "word/document.xml" "oi"])
      none [] PyVal.vNull [] true true [] [] (fun _ => false) "boom" "B"
      (fun _ _ => .error "boom")).1,
   (c8_all_or_nothing [] [] none (some [ArchivePart.mk "word/document.xml" "oi"])
      none [] PyVal.vNull [] true true [] [] (fun _ => false) "boom" "B"
      (fun _ _ => .ok "B")).2.1 (by rfl)⟩

theorem deactOne_banco_id (bid : String) (ex : Option Nat) (r : DescricaoBanco) :
    (deactOne bid ex r).banco_id = r.banco_id := by
  unfold deactOne
  split <;> rfl

theorem deactOne_pk (bid : String) (ex : Option Nat) (r : DescricaoBanco) :
    (deactOne bid ex r).pk = r.pk := by
  unfold deactOne
  split <;> rfl

theorem deactOne_act {bid : String} {ex : Option Nat} {r : DescricaoBanco}
    (h : (deactOne bid ex r).is_ativa = true) : r.is_ativa = true := by
  unfold deactOne at h
  split at h
  · simp at h
  · exact h

theorem deactOne_not_bid {bid : String} {ex : Option Nat} {r : DescricaoBanco}
    (hex : ex ≠ some r.pk) (h : (deactOne bid ex r).is_ativa = true) :
    r.banco_id ≠ bid := by
  unfold deactOne at h
  split at h
  · simp at h
  · rename_i hc
    intro hb
    exact hc ⟨hb, h, hex⟩

theorem applyDescPatch_pk (pk : Nat) (p : DescPatch) (bid : String)
    (sa : Bool) (now : Nat) (r : DescricaoBanco) :
    (applyDescPatch pk p bid sa now r).pk = r.pk := by
  unfold applyDescPatch
  split <;> rfl

theorem applyDescPatch_of_ne {pk : Nat} {p : DescPatch} {bid : String}
    {sa : Bool} {now : Nat} {r : DescricaoBanco} (h : ¬ r.pk = pk) :
    applyDescPatch pk p bid sa now r = r := by
  unfold applyDescPatch
  rw [if_neg h]

theorem applyDescPatch_of_eq {pk : Nat} {p : DescPatch} {bid : String}
    {sa : Bool} {now : Nat} {r : DescricaoBanco} (h : r.pk = pk) :
    (applyDescPatch pk p bid sa now r).banco_id = bid ∧
    (applyDescPatch pk p bid sa now r).is_ativa = sa := by
  unfold applyDescPatch
  rw [if_pos h]
  exact ⟨rfl, rfl⟩

theorem deact_append_active_unique {bid : String} {db : List DescricaoBanco}
    (hdb : ativaUnique db) (new : DescricaoBanco) (hnew : new.banco_id = bid) :
    ativaUnique (deactivateSiblings bid none db ++ [new]) := by
  unfold ativaUnique at *
  rw [List.pairwise_append]
  refine ⟨?_, List.pairwise_singleton _ _, ?_⟩
  · unfold deactivateSiblings
    rw [List.pairwise_map]
    apply hdb.imp
    intro a b hab ha hb
    rw [deactOne_banco_id, deactOne_banco_id]
    exact hab (deactOne_act ha) (deactOne_act hb)
  · intro a ha b hb haact hbact
    rw [List.mem_singleton] at hb
    subst hb
    unfold deactivateSiblings at ha
    rw [List.mem_map] at ha
    obtain ⟨r, -, hr⟩ := ha
    subst hr
    rw [deactOne_banco_id, hnew]
    exact deactOne_not_bid (by simp) haact

theorem append_inactive_active_unique {db : List DescricaoBanco}
    (hdb : ativaUnique db) (new : DescricaoBanco) (hnew : new.is_ativa = false) :
    ativaUnique (db ++ [new]) := by
  unfold ativaUnique at *
  rw [List.pairwise_append]
  refine ⟨hdb, List.pairwise_singleton _ _, ?_⟩
  intro a ha b hb haact hbact
  rw [List.mem_singleton] at hb
  subst hb
  rw [hnew] at hbact
  exact absurd hbact (by simp)

/-- Claim C2.  The serializer-level operations on `DescricaoBanco` —
create, partial update, the `set-ativa` action (an update), and the
account-side `_maybe_create_descricao_banco` — all preserve the at-most-
one-active-per-`banco_id` invariant of the conditional unique constraint,
by deactivating the siblings sharing the `banco_id` in the same
transaction.  The create and update cases assume what the API guarantees:
`banco_id` is a validated non-blank field, and primary keys are unique. -/
theorem c2_active_uniqueness_preserved
    (db : List DescricaoBanco) (inp : DescInput) (p : DescPatch)
    (pk newPk now : Nat) (bid2 bname2 d2 : String) (setAtiva2 : Bool)
    (hdb : ativaUnique db) :
    (inp.banco_id ≠ "" → ativaUnique (descricaoCreate db inp newPk now)) ∧
    (pksUnique db → p.banco_id ≠ some "" → (∀ r ∈ db, r.banco_id ≠ "") →
      ativaUnique (descricaoUpdate db pk p now)) ∧
    (pksUnique db → (∀ r ∈ db, r.banco_id ≠ "") →
      ativaUnique (descricaoSetAtiva db pk now)) ∧
    ativaUnique (maybe_create_descricao_banco db bid2 bname2 d2 setAtiva2 newPk now) := by
  have hupdate : ∀ (p2 : DescPatch), pksUnique db → p2.banco_id ≠ some "" →
      (∀ r ∈ db, r.banco_id ≠ "") → ativaUnique (descricaoUpdate db pk p2 now) := by
    intro p2 hpks hpne hdbne
    unfold descricaoUpdate
    cases hfind : db.find? (fun r => r.pk = pk) with
    | none => exact hdb
    | some inst =>
      dsimp only
      have hinst : inst ∈ db := List.mem_of_find?_eq_some hfind
      by_cases hsa : p2.is_ativa.getD inst.is_ativa = true
      · have hbid : p2.banco_id.getD inst.banco_id ≠ "" := by
          cases hpb : p2.banco_id with
          | none => simpa [hpb] using hdbne inst hinst
          | some s =>
            simp only [hpb, Option.getD_some]
            intro he
            subst he
            exact hpne hpb
        rw [if_pos ⟨hsa, hbid⟩]
        unfold ativaUnique deactivateSiblings at *
        rw [List.pairwise_map, List.pairwise_map]
        apply (hdb.and hpks).imp
        intro a b hab hFa hFb
        obtain ⟨hab, hpkab⟩ := hab
        by_cases hapk : (deactOne (p2.banco_id.getD inst.banco_id) (some pk) a).pk = pk
        · by_cases hbpk : (deactOne (p2.banco_id.getD inst.banco_id) (some pk) b).pk = pk
          · exfalso
            rw [deactOne_pk] at hapk hbpk
            exact hpkab (hapk.trans hbpk.symm)
          · obtain ⟨hfb1, -⟩ := @applyDescPatch_of_eq pk p2 (p2.banco_id.getD inst.banco_id) (p2.is_ativa.getD inst.is_ativa) now _ hapk
            rw [applyDescPatch_of_ne hbpk] at hFb ⊢
            rw [hfb1]
            rw [deactOne_banco_id]
            rw [deactOne_pk] at hbpk
            exact fun he =>
              (deactOne_not_bid (by simpa using fun hc => hbpk hc.symm) hFb) he.symm
        · by_cases hbpk : (deactOne (p2.banco_id.getD inst.banco_id) (some pk) b).pk = pk
          · obtain ⟨hfb1, -⟩ := @applyDescPatch_of_eq pk p2 (p2.banco_id.getD inst.banco_id) (p2.is_ativa.getD inst.is_ativa) now _ hbpk
            rw [applyDescPatch_of_ne hapk] at hFa ⊢
            rw [hfb1]
            rw [deactOne_banco_id]
            rw [deactOne_pk] at hapk
            exact deactOne_not_bid (by simpa using fun hc => hapk hc.symm) hFa
          · rw [applyDescPatch_of_ne hapk] at hFa ⊢
            rw [applyDescPatch_of_ne hbpk] at hFb ⊢
            rw [deactOne_banco_id, deactOne_banco_id]
            exact hab (deactOne_act hFa) (deactOne_act hFb)
      · rw [if_neg (fun hc => hsa hc.1)]
        unfold ativaUnique at *
        rw [List.pairwise_map]
        apply hdb.imp
        intro a b hab hFa hFb
        by_cases hapk : a.pk = pk
        · exfalso
          obtain ⟨-, hfa2⟩ := @applyDescPatch_of_eq pk p2 (p2.banco_id.getD inst.banco_id) (p2.is_ativa.getD inst.is_ativa) now _ hapk
          rw [hfa2] at hFa
          exact hsa hFa
        · by_cases hbpk : b.pk = pk
          · exfalso
            obtain ⟨-, hfb2⟩ := @applyDescPatch_of_eq pk p2 (p2.banco_id.getD inst.banco_id) (p2.is_ativa.getD inst.is_ativa) now _ hbpk
            rw [hfb2] at hFb
            exact hsa hFb
          · rw [applyDescPatch_of_ne hapk] at hFa ⊢
            rw [applyDescPatch_of_ne hbpk] at hFb ⊢
            exact hab hFa hFb
  refine ⟨?_, hupdate p, fun hpks hdbne => ?_, ?_⟩
  · intro hbid
    unfold descricaoCreate
    by_cases hact : inp.is_ativa = true
    · rw [if_pos ⟨hact, hbid⟩]
      exact deact_append_active_unique hdb _ rfl
    · rw [if_neg (fun hc => hact hc.1)]
      exact append_inactive_active_unique hdb _ (by simpa using hact)
  · show ativaUnique (descricaoUpdate db pk
      (DescPatch.mk none none none none none (some true)) now)
    exact hupdate _ hpks (by simp) hdbne
  · unfold maybe_create_descricao_banco
    dsimp only
    by_cases hguard : pyStrip bid2 = "" ∨ pyStrip d2 = ""
    · rw [if_pos hguard]
      exact hdb
    · rw [if_neg hguard]
      by_cases hact : setAtiva2 = true
      · subst hact
        rw [if_pos rfl]
        exact deact_append_active_unique hdb _ rfl
      · rw [if_neg hact]
        exact append_inactive_active_unique hdb _ (by simpa using hact)

/-- A concrete table with two variations of bank 341, one active. -/
def c2db : List DescricaoBanco :=
  [DescricaoBanco.mk 1 "341" "Itau" "Itau Unibanco S.A." "" "" "" true 5,
   DescricaoBanco.mk 2 "341" "Itau" "Banco Itau" "" "" "" false 3]

def c2inp : DescInput := DescInput.mk "341" "Itau" "" "" "" true

def c2patch : DescPatch :=
  DescPatch.mk none none none none none (some true)

theorem c2_active_uniqueness_preserved_witness :
    ativaUnique c2db ∧
    ativaUnique (descricaoCreate c2db c2inp 3 7) ∧
    ativaUnique (descricaoUpdate c2db 2 c2patch 7) ∧
    ativaUnique (descricaoSetAtiva c2db 2 7) ∧
    ativaUnique (maybe_create_descricao_banco c2db "104" "Caixa" "Caixa Economica Federal" true 3 7) :=
  have h := c2_active_uniqueness_preserved c2db c2inp c2patch 2 3 7
    "104" "Caixa" "Caixa Economica Federal" true (by decide)
  ⟨by decide, h.1 (by decide), h.2.1 (by decide) (by decide) (by decide),
   h.2.2.1 (by decide) (by decide), h.2.2.2⟩

/-! ### Claim C1: the bank-lookup priority order -/

def c1conta : ContaBancaria := ContaBancaria.mk "Itau (341)" "341" true

def c1db : List DescricaoBanco :=
  [DescricaoBanco.mk 7 "341" "Itau" "Itau Unibanco S.A." "Itau Unibanco"
    "60.701.190/0001-04" "Praca Alfredo Egydio" false 9]

/-- Claim C1, counterexample.  The spec says that when no ACTIVE record
matches the identifier the resolver falls back to the most recently
updated record regardless of the active flag.  In the code,
`_get_banco_descricao_ativa` filters `is_ativa=True` unconditionally, so
with a single INACTIVE record for the account's bank code `341` the
resolver returns `None` even though a record for that identifier exists
(the inactive-fallback exists only in the `/descricoes-banco/lookup/`
endpoint, which is not called by the render pipeline). -/
theorem c1_counterexample :
    (∃ r ∈ c1db, r.banco_id = pyStrip c1conta.banco_codigo) ∧
    get_banco_descricao_ativa (some c1conta) c1db = none := by
  decide

/-- The name-branch witness data: an account with no short code whose
display name carries a numeric suffix, and an active description whose
`banco_nome` equals the normalized name. -/
def c1contaN : ContaBancaria := ContaBancaria.mk "Caixa Economica (104)" "" true

def c1dbN : List DescricaoBanco :=
  [DescricaoBanco.mk 3 "104" "Caixa Economica" "d" "Caixa Economica Federal"
    "00.360.305/0001-04" "SBS Quadra 4" true 4]

/-- Claim C1, amended.  What the code actually does: (1)-(2) when the
account's stripped short code is non-empty, the render-pipeline resolver
`_get_banco_descricao_ativa` only ever answers from an ACTIVE record
whose `banco_id` equals the stripped code — most recently updated among
the active matches — and returns `None` when no active record matches,
never falling back to an inactive record; (3)-(4) when the code is empty
and the stripped account name is non-empty, the same holds with the
match on `banco_nome` equal to the normalized account name (trailing
parenthesized numeric suffix stripped); (5) when the resolver returns
`None`, the legacy `{{ banco }}` string falls back to the raw account
bank name via `_format_banco_string`; (6) the
regardless-of-the-active-flag fallback exists only in the
`DescricaoBancoViewSet.lookup` endpoint, which the render pipeline never
calls: whenever any record matches the requested id it answers `found`
with a matching record, an active one whenever an active match exists. -/
theorem c1_bank_lookup_priority (conta : ContaBancaria)
    (db : List DescricaoBanco) :
    (pyStrip conta.banco_codigo ≠ "" →
      ∀ d, get_banco_descricao_ativa (some conta) db = some d →
      ∃ r, r ∈ db ∧ r.is_ativa = true ∧
        r.banco_id = pyStrip conta.banco_codigo ∧
        d = BancoDesc.mk
          (pyStrip (pyOr r.nome_banco (pyOr r.banco_nome
            (pyStrip conta.banco_nome))))
          (pyStrip r.cnpj) (pyStrip r.endereco) ∧
        (∀ r2 ∈ db, r2.is_ativa = true →
          r2.banco_id = pyStrip conta.banco_codigo →
          r2.atualizado_em ≤ r.atualizado_em)) ∧
    (pyStrip conta.banco_codigo ≠ "" →
      (∀ r ∈ db, r.is_ativa = true →
        r.banco_id ≠ pyStrip conta.banco_codigo) →
      get_banco_descricao_ativa (some conta) db = none) ∧
    (pyStrip conta.banco_codigo = "" → pyStrip conta.banco_nome ≠ "" →
      ∀ d, get_banco_descricao_ativa (some conta) db = some d →
      ∃ r, r ∈ db ∧ r.is_ativa = true ∧
        r.banco_nome = normalize_bank_name (pyStrip conta.banco_nome) ∧
        d = BancoDesc.mk
          (pyStrip (pyOr r.nome_banco (pyOr r.banco_nome
            (pyStrip conta.banco_nome))))
          (pyStrip r.cnpj) (pyStrip r.endereco) ∧
        (∀ r2 ∈ db, r2.is_ativa = true →
          r2.banco_nome = normalize_bank_name (pyStrip conta.banco_nome) →
          r2.atualizado_em ≤ r.atualizado_em)) ∧
    (pyStrip conta.banco_codigo = "" → pyStrip conta.banco_nome ≠ "" →
      (∀ r ∈ db, r.is_ativa = true →
        r.banco_nome ≠ normalize_bank_name (pyStrip conta.banco_nome)) →
      get_banco_descricao_ativa (some conta) db = none) ∧
    (∀ fb, get_banco_descricao_ativa (some conta) db = none →
      format_banco_string (get_banco_descricao_ativa (some conta) db) fb =
        fb) ∧
    (∀ bid, bid ≠ "" → (∃ r ∈ db, r.banco_id = bid) →
      ∃ r, lookupDescricao (some bid) none db = .found r ∧ r ∈ db ∧
        r.banco_id = bid ∧
        ((∃ a ∈ db, a.banco_id = bid ∧ a.is_ativa = true) →
          r.is_ativa = true)) := by
  refine ⟨?_, ?_, ?_, ?_, ?_, ?_⟩
  · intro hbc d hd
    unfold get_banco_descricao_ativa at hd
    dsimp only at hd
    rw [if_pos hbc] at hd
    split at hd
    · exact absurd hd (by simp)
    · rename_i obj hfm
      have hmem := firstMaxBy_mem _ _ _ hfm
      simp only [List.mem_filter, decide_eq_true_eq] at hmem
      refine ⟨obj, hmem.1.1, hmem.1.2, hmem.2, (Option.some.inj hd).symm, ?_⟩
      intro r2 hr2 hr2a hr2b
      have hr2q := firstMaxBy_max _ _ _ hfm r2 ?_
      · simp only [keyGt] at hr2q
        simp at hr2q
        omega
      · simp only [List.mem_filter, decide_eq_true_eq]
        exact ⟨⟨hr2, hr2a⟩, hr2b⟩
  · intro hbc hforall
    unfold get_banco_descricao_ativa
    dsimp only
    rw [if_pos hbc]
    split
    · rfl
    · rename_i obj hfm
      exfalso
      have hmem := firstMaxBy_mem _ _ _ hfm
      simp only [List.mem_filter, decide_eq_true_eq] at hmem
      exact hforall obj hmem.1.1 hmem.1.2 hmem.2
  · intro hbc0 hbn d hd
    unfold get_banco_descricao_ativa at hd
    dsimp only at hd
    rw [if_neg (fun h => h hbc0), if_pos hbn] at hd
    split at hd
    · exact absurd hd (by simp)
    · rename_i obj hfm
      have hmem := firstMaxBy_mem _ _ _ hfm
      simp only [List.mem_filter, decide_eq_true_eq] at hmem
      refine ⟨obj, hmem.1.1, hmem.1.2, hmem.2, (Option.some.inj hd).symm, ?_⟩
      intro r2 hr2 hr2a hr2b
      have hr2q := firstMaxBy_max _ _ _ hfm r2 ?_
      · simp only [keyGt] at hr2q
        simp at hr2q
        omega
      · simp only [List.mem_filter, decide_eq_true_eq]
        exact ⟨⟨hr2, hr2a⟩, hr2b⟩
  · intro hbc0 hbn hforall
    unfold get_banco_descricao_ativa
    dsimp only
    rw [if_neg (fun h => h hbc0), if_pos hbn]
    split
    · rfl
    · rename_i obj hfm
      exfalso
      have hmem := firstMaxBy_mem _ _ _ hfm
      simp only [List.mem_filter, decide_eq_true_eq] at hmem
      exact hforall obj hmem.1.1 hmem.1.2 hmem.2
  · intro fb h
    rw [h]
    rfl
  · intro bid hbid hex
    have hbt : (bid != "") = true := by simpa using hbid
    unfold lookupDescricao
    dsimp only
    split
    · rename_i hcond
      exfalso
      simp at hcond
      exact hbid hcond
    · split
      · rename_i o hfm
        have hmem := firstMaxBy_mem _ _ _ hfm
        simp only [List.mem_filter, decide_eq_true_eq, Option.getD_some]
          at hmem
        exact ⟨o, rfl, hmem.1.1, hmem.1.2, fun _ => hmem.2⟩
      · rename_i hfm
        split
        · rename_i o hfm2
          have hmem := firstMaxBy_mem _ _ _ hfm2
          simp only [List.mem_filter, decide_eq_true_eq, Option.getD_some]
            at hmem
          refine ⟨o, rfl, hmem.1, hmem.2, ?_⟩
          rintro ⟨a, ha, hab, haa⟩
          exfalso
          have hamem : a ∈ (db.filter
              (fun r => decide (r.banco_id = (some bid).getD ""))).filter
              (fun r => r.is_ativa) := by
            simp only [List.mem_filter, decide_eq_true_eq, Option.getD_some]
            exact ⟨⟨ha, hab⟩, haa⟩
          have hne2 : (db.filter
              (fun r => decide (r.banco_id = (some bid).getD ""))).filter
              (fun r => r.is_ativa) ≠ [] := by
            intro hnil
            rw [hnil] at hamem
            simp at hamem
          have h2 := firstMaxBy_isSome (fun r => (r.atualizado_em, 0)) _ hne2
          rw [hfm] at h2
          simp at h2
        · rename_i hfm2
          exfalso
          obtain ⟨r, hr, hrb⟩ := hex
          have hrmem : r ∈ db.filter
              (fun r => decide (r.banco_id = (some bid).getD "")) := by
            simp only [List.mem_filter, decide_eq_true_eq, Option.getD_some]
            exact ⟨hr, hrb⟩
          have hne : db.filter
              (fun r => decide (r.banco_id = (some bid).getD "")) ≠ [] := by
            intro hnil
            rw [hnil] at hrmem
            simp at hrmem
          have h2 := firstMaxBy_isSome
            (fun r => (if r.is_ativa then 1 else 0, r.atualizado_em)) _ hne
          rw [hfm2] at h2
          simp at h2

/-- Witness for the amended C1, exercising the name branch (an account
without a short code resolved through the normalized display name), the
raw-name fallback of the legacy string when the resolver finds nothing,
and the lookup endpoint's inactive fallback. -/
theorem c1_bank_lookup_priority_witness :
    (∃ r, r ∈ c1dbN ∧ r.is_ativa = true ∧
      r.banco_nome = normalize_bank_name (pyStrip c1contaN.banco_nome) ∧
      BancoDesc.mk "Caixa Economica Federal" "00.360.305/0001-04"
          "SBS Quadra 4" = BancoDesc.mk
        (pyStrip (pyOr r.nome_banco (pyOr r.banco_nome
          (pyStrip c1contaN.banco_nome))))
        (pyStrip r.cnpj) (pyStrip r.endereco) ∧
      (∀ r2 ∈ c1dbN, r2.is_ativa = true →
        r2.banco_nome = normalize_bank_name (pyStrip c1contaN.banco_nome) →
        r2.atualizado_em ≤ r.atualizado_em)) ∧
    format_banco_string (get_banco_descricao_ativa (some c1conta) c1db)
      "Banco do Cliente" = "Banco do Cliente" ∧
    (∃ r, lookupDescricao (some "341") none c1db = .found r ∧ r ∈ c1db ∧
      r.banco_id = "341" ∧
      ((∃ a ∈ c1db, a.banco_id = "341" ∧ a.is_ativa = true) →
        r.is_ativa = true)) :=
  ⟨(c1_bank_lookup_priority c1contaN c1dbN).2.2.1 (by decide) (by decide)
      (BancoDesc.mk "Caixa Economica Federal" "00.360.305/0001-04"
        "SBS Quadra 4") (by decide),
   (c1_bank_lookup_priority c1conta c1db).2.2.2.2.1 "Banco do Cliente"
     (by decide),
   (c1_bank_lookup_priority c1conta c1db).2.2.2.2.2 "341" (by decide)
     (by decide)⟩

end Jurisdoc
